import Mathlib

/-!
Verification of the poster bot's post/schedule subsystem against its
natural-language specification.  The definitions below are shallow embeddings
of the TypeScript sources: `src/utils/validators.ts` (validateHTML,
validateMediaGroupSize), `src/services/postService.ts` (createPost, addMedia,
addButton, schedulePost, duplicatePost, getPostById ordering),
`src/services/telegramPublishService.ts` (publishPostToTelegram, keyboard
building), `src/services/postSchedulerService.ts` (checkAndPublishScheduledPosts),
and the composition handlers in `src/bot/handlers` (media upload, save draft,
scheduled commit, publish now).  Machine integers are modelled as `Nat`;
fallible repository/platform calls are modelled with explicit outcome
parameters; `Option` stands for SQL NULL / JS undefined.
-/

namespace Poster

/-! ## Generic insertion sort with a boolean comparator

JavaScript's `Array.prototype.sort` is a stable comparison sort (ES2019);
on lists whose comparator is total and transitive any stable sort produces
the same result, so we model it with insertion sort. -/

def insertLe {α : Type} (le : α → α → Bool) (a : α) : List α → List α
  | [] => [a]
  | b :: bs => if le a b then a :: b :: bs else b :: insertLe le a bs

def sortBy {α : Type} (le : α → α → Bool) : List α → List α
  | [] => []
  | a :: as => insertLe le a (sortBy le as)

theorem insertLe_perm {α : Type} (le : α → α → Bool) (a : α) (l : List α) :
    List.Perm (insertLe le a l) (a :: l) := by
  induction l with
  | nil => simp [insertLe]
  | cons b bs ih =>
    by_cases h : le a b
    · simp [insertLe, h]
    · simp only [insertLe, h, if_neg, Bool.false_eq_true, not_false_iff, if_false]
      exact ((ih.cons b).trans (List.Perm.swap a b bs))

theorem sortBy_perm {α : Type} (le : α → α → Bool) (l : List α) :
    List.Perm (sortBy le l) l := by
  induction l with
  | nil => simp [sortBy]
  | cons a as ih =>
    exact (insertLe_perm le a (sortBy le as)).trans (ih.cons a)

theorem mem_sortBy {α : Type} {le : α → α → Bool} {x : α} {l : List α} :
    x ∈ sortBy le l ↔ x ∈ l :=
  (sortBy_perm le l).mem_iff

theorem mem_insertLe {α : Type} {le : α → α → Bool} {x a : α} {l : List α} :
    x ∈ insertLe le a l ↔ x = a ∨ x ∈ l := by
  rw [(insertLe_perm le a l).mem_iff]; simp

theorem insertLe_pairwise {α : Type} {le : α → α → Bool}
    (total : ∀ a b, le a b = true ∨ le b a = true)
    (trans : ∀ a b c, le a b = true → le b c = true → le a c = true)
    (a : α) {l : List α}
    (hl : l.Pairwise (fun x y => le x y = true)) :
    (insertLe le a l).Pairwise (fun x y => le x y = true) := by
  induction l with
  | nil => simp [insertLe]
  | cons b bs ih =>
    rcases hl with _ | ⟨hb, hbs⟩
    by_cases h : le a b = true
    · simp only [insertLe, h, if_true]
      refine List.Pairwise.cons ?_ (List.Pairwise.cons hb hbs)
      intro y hy
      rcases List.mem_cons.mp hy with hy | hy
      · exact hy ▸ h
      · exact trans a b y h (hb y hy)
    · simp only [insertLe, h, if_false]
      refine List.Pairwise.cons ?_ (ih hbs)
      intro y hy
      rcases mem_insertLe.mp hy with hy | hy
      · rcases total a b with hab | hba
        · exact absurd hab h
        · exact hy ▸ hba
      · exact hb y hy

theorem sortBy_pairwise {α : Type} {le : α → α → Bool}
    (total : ∀ a b, le a b = true ∨ le b a = true)
    (trans : ∀ a b c, le a b = true → le b c = true → le a c = true)
    (l : List α) :
    (sortBy le l).Pairwise (fun x y => le x y = true) := by
  induction l with
  | nil => simp [sortBy]
  | cons a as ih => exact insertLe_pairwise total trans a ih

theorem sortBy_eq_of_sorted {α : Type} {le : α → α → Bool} {l : List α}
    (hl : l.Pairwise (fun x y => le x y = true)) : sortBy le l = l := by
  induction l with
  | nil => rfl
  | cons a as ih =>
    rcases hl with _ | ⟨ha, has⟩
    rw [sortBy, ih has]
    cases as with
    | nil => rfl
    | cons b bs =>
      have hab : le a b = true := ha b (List.mem_cons_self b bs)
      simp [insertLe, hab]

theorem sortBy_nodup {α : Type} {le : α → α → Bool} {l : List α}
    (hl : l.Nodup) : (sortBy le l).Nodup :=
  ((sortBy_perm le l).nodup_iff).mpr hl

/-! ## Decimal numerals and the JavaScript default sort order

`Array.prototype.sort()` without a comparator converts elements to strings
and compares them lexicographically by UTF-16 code units.  For natural
numbers the string is the decimal numeral, and on decimal digits code-unit
order coincides with digit-value order, so we compare digit lists. -/

def decDigitsGo : Nat → Nat → List Nat
  | _, 0 => []
  | 0, _ + 1 => []
  | f + 1, n + 1 => decDigitsGo f ((n + 1) / 10) ++ [(n + 1) % 10]

/-- Decimal digits of `n`, most significant first; `String(n)` in JS. -/
def decimalDigits (n : Nat) : List Nat :=
  if n = 0 then [0] else decDigitsGo n n

/-- Lexicographic strict order on digit lists: the order JS `<` induces on
the corresponding numeral strings. -/
def digitsLt : List Nat → List Nat → Bool
  | [], [] => false
  | [], _ :: _ => true
  | _ :: _, [] => false
  | a :: as, b :: bs => if a < b then true else if b < a then false else digitsLt as bs

/-- The string order used by JS default `sort` on two natural numbers. -/
def jsNumLt (m n : Nat) : Bool := digitsLt (decimalDigits m) (decimalDigits n)

/-- Non-strict version of `jsNumLt`; the total preorder realised by the sort. -/
def jsNumLe (m n : Nat) : Bool := !(jsNumLt n m)

theorem digitsLt_irrefl (a : List Nat) : digitsLt a a = false := by
  induction a with
  | nil => rfl
  | cons x xs ih => simp [digitsLt, ih]

theorem digitsLt_asymm {a b : List Nat} (h : digitsLt a b = true) :
    digitsLt b a = false := by
  induction a generalizing b with
  | nil =>
    cases b with
    | nil => simp [digitsLt] at h
    | cons y ys => rfl
  | cons x xs ih =>
    cases b with
    | nil => simp [digitsLt] at h
    | cons y ys =>
      by_cases hxy : x < y
      · have : ¬ y < x := Nat.lt_asymm hxy
        simp [digitsLt, this, Nat.ne_of_gt hxy, hxy]
      · by_cases hyx : y < x
        · simp [digitsLt, hxy, hyx] at h
        · have hx : x = y := Nat.le_antisymm (Nat.le_of_not_lt hyx) (Nat.le_of_not_lt hxy)
          subst hx
          simp only [digitsLt, Nat.lt_irrefl, if_false] at h ⊢
          exact ih h

theorem digitsLt_trichotomy (a b : List Nat) :
    digitsLt a b = true ∨ digitsLt b a = true ∨ a = b := by
  induction a generalizing b with
  | nil =>
    cases b with
    | nil => right; right; rfl
    | cons y ys => left; rfl
  | cons x xs ih =>
    cases b with
    | nil => right; left; rfl
    | cons y ys =>
      by_cases hxy : x < y
      · left; simp [digitsLt, hxy]
      · by_cases hyx : y < x
        · right; left; simp [digitsLt, hyx]
        · have hx : x = y := Nat.le_antisymm (Nat.le_of_not_lt hyx) (Nat.le_of_not_lt hxy)
          subst hx
          rcases ih ys with h | h | h
          · left; simp [digitsLt, h]
          · right; left; simp [digitsLt, h]
          · right; right; rw [h]

theorem digitsLt_trans {a b c : List Nat} (hab : digitsLt a b = true)
    (hbc : digitsLt b c = true) : digitsLt a c = true := by
  induction a generalizing b c with
  | nil =>
    cases b with
    | nil => simp [digitsLt] at hab
    | cons y ys =>
      cases c with
      | nil => simp [digitsLt] at hbc
      | cons z zs => rfl
  | cons x xs ih =>
    cases b with
    | nil => simp [digitsLt] at hab
    | cons y ys =>
      cases c with
      | nil => simp [digitsLt] at hbc
      | cons z zs =>
        rcases Nat.lt_trichotomy x y with hxy | hxy | hxy
        · rcases Nat.lt_trichotomy y z with hyz | hyz | hyz
          · simp [digitsLt, Nat.lt_trans hxy hyz]
          · subst hyz; simp [digitsLt, hxy]
          · simp [digitsLt, Nat.lt_asymm hyz, hyz] at hbc
        · subst hxy
          rcases Nat.lt_trichotomy x z with hxz | hxz | hxz
          · simp [digitsLt, hxz]
          · subst hxz
            simp only [digitsLt, Nat.lt_irrefl, if_false] at hab hbc ⊢
            exact ih hab hbc
          · simp [digitsLt, Nat.lt_asymm hxz, hxz] at hbc
        · simp [digitsLt, Nat.lt_asymm hxy, hxy] at hab

theorem jsNumLe_total (m n : Nat) : jsNumLe m n = true ∨ jsNumLe n m = true := by
  unfold jsNumLe jsNumLt
  rcases digitsLt_trichotomy (decimalDigits m) (decimalDigits n) with h | h | h
  · left; rw [digitsLt_asymm h]; rfl
  · right; rw [digitsLt_asymm h]; rfl
  · left; rw [h, digitsLt_irrefl]; rfl

theorem jsNumLe_trans (a b c : Nat) (hab : jsNumLe a b = true)
    (hbc : jsNumLe b c = true) : jsNumLe a c = true := by
  unfold jsNumLe jsNumLt at hab hbc ⊢
  simp only [Bool.not_eq_true'] at hab hbc ⊢
  by_contra hca
  have hca' : digitsLt (decimalDigits c) (decimalDigits a) = true := by
    cases h : digitsLt (decimalDigits c) (decimalDigits a)
    · exact absurd h hca
    · rfl
  rcases digitsLt_trichotomy (decimalDigits a) (decimalDigits b) with h | h | h
  · have := digitsLt_trans hca' h
    rw [this] at hbc; cases hbc
  · rw [h] at hab; cases hab
  · rw [h] at hca'
    rw [hca'] at hbc; cases hbc

/-- For single-digit row numbers the JS string order agrees with numeric
order (digit code units are ordered like the digits themselves). -/
theorem jsNumLt_single_digit :
    ∀ m, m < 10 → ∀ n, n < 10 → jsNumLt m n = decide (m < n) := by decide

theorem jsNumLt_irrefl (n : Nat) : jsNumLt n n = false := by
  unfold jsNumLt; exact digitsLt_irrefl _

/-! ## Buttons and the outbound keyboard (telegramPublishService.ts 46-64)

`publishPostToTelegram` groups the post's buttons into a `Map` keyed by row
(insertion order = first occurrence), sorts the keys with the default
`Array.prototype.sort()` (string comparison!), and within each row sorts by
`position` with a numeric comparator. -/

structure PostButton where
  text : String
  url : String
  row : Nat
  position : Nat
deriving DecidableEq

/-- Keys of the `buttonsByRow` map, in insertion (first-occurrence) order. -/
def rowKeys (bs : List PostButton) : List Nat :=
  bs.foldl (fun ks b => if b.row ∈ ks then ks else ks ++ [b.row]) []

/-- The map entry for row `r`: buttons of that row in encounter order. -/
def buttonsInRow (bs : List PostButton) (r : Nat) : List PostButton :=
  bs.filter (fun b => b.row == r)

/-- Comparator `(a, b) => a.position - b.position` used inside a row. -/
def positionLe (a b : PostButton) : Bool := decide (a.position ≤ b.position)

/-- Keyboard rows as built by the `forEach` over the sorted keys. -/
def renderKeyboardRows (bs : List PostButton) : List (List PostButton) :=
  (sortBy jsNumLe (rowKeys bs)).map (fun r => sortBy positionLe (buttonsInRow bs r))

/-- All keyboard buttons in the order they are appended to the `InlineKeyboard`. -/
def renderKeyboard (bs : List PostButton) : List PostButton :=
  (renderKeyboardRows bs).flatten

/-- The ordering the rendered keyboard actually guarantees: rows never
decrease in the JS string order of their decimal numerals, and inside one
row positions never decrease. -/
def keyboardOrder (a b : PostButton) : Prop :=
  jsNumLt b.row a.row = false ∧ (a.row = b.row → a.position ≤ b.position)

theorem rowKeys_aux_nodup (bs : List PostButton) :
    ∀ acc : List Nat, acc.Nodup →
      (bs.foldl (fun ks b => if b.row ∈ ks then ks else ks ++ [b.row]) acc).Nodup := by
  induction bs with
  | nil => intro acc h; exact h
  | cons b rest ih =>
    intro acc hacc
    simp only [List.foldl_cons]
    by_cases h : b.row ∈ acc
    · simp only [h, if_true]; exact ih acc hacc
    · simp only [h, if_false]
      refine ih _ (List.nodup_append.mpr ⟨hacc, List.nodup_singleton _, ?_⟩)
      intro x hx hx'
      simp only [List.mem_singleton] at hx'
      exact h (hx' ▸ hx)

theorem rowKeys_nodup (bs : List PostButton) : (rowKeys bs).Nodup :=
  rowKeys_aux_nodup bs [] List.nodup_nil

theorem positionLe_total (a b : PostButton) :
    positionLe a b = true ∨ positionLe b a = true := by
  unfold positionLe
  rcases Nat.le_total a.position b.position with h | h
  · left; simpa using h
  · right; simpa using h

theorem positionLe_trans (a b c : PostButton) (hab : positionLe a b = true)
    (hbc : positionLe b c = true) : positionLe a c = true := by
  unfold positionLe at hab hbc ⊢
  simp only [decide_eq_true_eq] at hab hbc ⊢
  exact Nat.le_trans hab hbc

theorem mem_buttonsInRow {bs : List PostButton} {r : Nat} {b : PostButton}
    (h : b ∈ buttonsInRow bs r) : b ∈ bs ∧ b.row = r := by
  unfold buttonsInRow at h
  have := List.mem_filter.mp h
  exact ⟨this.1, by simpa using this.2⟩

theorem mem_renderKeyboard {bs : List PostButton} {b : PostButton}
    (h : b ∈ renderKeyboard bs) : b ∈ bs := by
  unfold renderKeyboard at h
  rcases List.mem_flatten.mp h with ⟨l, hl, hb⟩
  unfold renderKeyboardRows at hl
  rcases List.mem_map.mp hl with ⟨r, _, rfl⟩
  exact (mem_buttonsInRow (mem_sortBy.mp hb)).1

theorem pairwise_and_of_pairwise {α : Type} {R S : α → α → Prop} {l : List α}
    (hR : l.Pairwise R) (hS : l.Pairwise S) :
    l.Pairwise (fun a b => R a b ∧ S a b) := by
  induction l with
  | nil => exact List.Pairwise.nil
  | cons a as ih =>
    rcases hR with _ | ⟨haR, hasR⟩
    rcases hS with _ | ⟨haS, hasS⟩
    exact List.Pairwise.cons (fun y hy => ⟨haR y hy, haS y hy⟩) (ih hasR hasS)

theorem renderKeyboard_pairwise (bs : List PostButton) :
    (renderKeyboard bs).Pairwise keyboardOrder := by
  unfold renderKeyboard
  rw [List.pairwise_flatten]
  constructor
  · intro l' hl'
    unfold renderKeyboardRows at hl'
    rcases List.mem_map.mp hl' with ⟨r, _, rfl⟩
    have hsorted := sortBy_pairwise positionLe_total positionLe_trans (buttonsInRow bs r)
    refine hsorted.imp_of_mem ?_
    intro a b ha hb hab
    have hra := (mem_buttonsInRow (mem_sortBy.mp ha)).2
    have hrb := (mem_buttonsInRow (mem_sortBy.mp hb)).2
    refine ⟨?_, fun _ => by simpa [positionLe] using hab⟩
    rw [hrb, hra, jsNumLt_irrefl]
  · unfold renderKeyboardRows
    rw [List.pairwise_map]
    have hkeys : (sortBy jsNumLe (rowKeys bs)).Pairwise
        (fun m n => jsNumLe m n = true ∧ m ≠ n) := by
      refine pairwise_and_of_pairwise
        (sortBy_pairwise jsNumLe_total jsNumLe_trans (rowKeys bs)) ?_
      exact sortBy_nodup (rowKeys_nodup bs)
    refine hkeys.imp ?_
    rintro r₁ r₂ ⟨hle, hne⟩ x hx y hy
    have hrx := (mem_buttonsInRow (mem_sortBy.mp hx)).2
    have hry := (mem_buttonsInRow (mem_sortBy.mp hy)).2
    constructor
    · rw [hrx, hry]
      unfold jsNumLe at hle
      simpa using hle
    · intro hxy
      exact absurd (hrx ▸ hry ▸ hxy) hne

/-- Concrete two-button list exposing the string sort: rows 2 and 10. -/
def c4Buttons : List PostButton :=
  [⟨"first", "https://a.example", 2, 0⟩, ⟨"second", "https://b.example", 10, 0⟩]

/-- C4 counterexample: the claim says rows are rendered in ascending numeric
order for every button list, but `Array.from(keys).sort()` compares the
decimal strings, so the row-10 button is rendered before the row-2 button. -/
theorem c4_counterexample :
    ¬ (renderKeyboard c4Buttons).Pairwise (fun a b => a.row ≤ b.row) ∧
      (renderKeyboard c4Buttons).map (fun b => b.row) = [10, 2] := by
  constructor
  · decide
  · decide

/-- C4 (amended): the delivery engine renders buttons grouped by row with the
rows in ascending lexicographic order of their decimal string representations
(the JS default sort), buttons within a row in ascending position order; when
every row index is a single digit this coincides with ascending numeric order,
and in particular a button with row=1 never precedes a button with row=0. -/
theorem c4_keyboard_order (bs : List PostButton) :
    (renderKeyboard bs).Pairwise keyboardOrder ∧
    ((∀ b ∈ bs, b.row ≤ 9) →
      (renderKeyboard bs).Pairwise (fun a b => a.row ≤ b.row)) ∧
    (∀ i j : Fin (renderKeyboard bs).length, i < j →
      ((renderKeyboard bs).get i).row = 1 → ((renderKeyboard bs).get j).row ≠ 0) := by
  refine ⟨renderKeyboard_pairwise bs, ?_, ?_⟩
  · intro h9
    refine (renderKeyboard_pairwise bs).imp_of_mem ?_
    intro a b ha hb hab
    have h9a : a.row ≤ 9 := h9 a (mem_renderKeyboard ha)
    have h9b : b.row ≤ 9 := h9 b (mem_renderKeyboard hb)
    have hfalse := hab.1
    rw [jsNumLt_single_digit b.row (Nat.lt_succ_of_le h9b) a.row
      (Nat.lt_succ_of_le h9a)] at hfalse
    have : ¬ b.row < a.row := of_decide_eq_false hfalse
    exact Nat.le_of_not_lt this
  · intro i j hij h1 h0
    have hpw := (List.pairwise_iff_get.mp (renderKeyboard_pairwise bs)) i j hij
    have := hpw.1
    rw [h1, h0] at this
    have hlt : jsNumLt 0 1 = true := by decide
    rw [this] at hlt
    cases hlt

/-- Witness for `c4_keyboard_order` at a concrete two-row button list. -/
theorem c4_keyboard_order_witness :
    ((renderKeyboard [⟨"x", "https://x", 1, 0⟩, ⟨"y", "https://y", 0, 0⟩]).Pairwise
        (fun a b => a.row ≤ b.row)) ∧
    (∀ i j : Fin (renderKeyboard
        [⟨"x", "https://x", 1, 0⟩, ⟨"y", "https://y", 0, 0⟩]).length, i < j →
      ((renderKeyboard [⟨"x", "https://x", 1, 0⟩, ⟨"y", "https://y", 0, 0⟩]).get i).row = 1 →
      ((renderKeyboard [⟨"x", "https://x", 1, 0⟩, ⟨"y", "https://y", 0, 0⟩]).get j).row ≠ 0) :=
  ⟨(c4_keyboard_order [⟨"x", "https://x", 1, 0⟩, ⟨"y", "https://y", 0, 0⟩]).2.1
      (by decide),
    (c4_keyboard_order [⟨"x", "https://x", 1, 0⟩, ⟨"y", "https://y", 0, 0⟩]).2.2⟩

/-! ## Durable data model (prisma schema, docs/db-structure)

`Store` is the relational state the services mutate.  Media and buttons are
kept inline on their owning post (they are only ever accessed through the
post's relation); `statistics` is the list of post ids owning a
`PostStatistics` row. -/

inductive PostStatus
  | DRAFT
  | SCHEDULED
  | PUBLISHED
  | FAILED
deriving DecidableEq

inductive ScheduleStatus
  | PENDING
  | PUBLISHED
  | FAILED
  | CANCELLED
deriving DecidableEq

inductive MediaType
  | PHOTO
  | VIDEO
  | DOCUMENT
  | ANIMATION
deriving DecidableEq

structure Media where
  file_id : String
  file_type : MediaType
  file_size : Option Nat
  caption : Option String
  position : Nat
deriving DecidableEq

structure Schedule where
  post_id : Nat
  scheduled_at : Nat
  status : ScheduleStatus
  attempts : Nat
  last_error : Option String
  published_at : Option Nat
deriving DecidableEq

structure Post where
  id : Nat
  channel_id : Nat
  text : String
  status : PostStatus
  telegram_message_id : Option Nat
  published_at : Option Nat
  media : List Media
  buttons : List PostButton
deriving DecidableEq

structure Store where
  posts : List Post
  schedules : List Schedule
  statistics : List Nat
deriving DecidableEq

/-- `prisma.post.findUnique({ where: { id } })`. -/
def findPost (st : Store) (postId : Nat) : Option Post :=
  st.posts.find? (fun p => p.id == postId)

/-- `prisma.post.update({ where: { id } })` with an arbitrary field change. -/
def mapPost (st : Store) (postId : Nat) (f : Post → Post) : Store :=
  { st with posts := st.posts.map (fun p => if p.id == postId then f p else p) }

/-- Update of the (unique, 1:1) schedule row of a post. -/
def mapSchedule (st : Store) (postId : Nat) (f : Schedule → Schedule) : Store :=
  { st with schedules := st.schedules.map (fun s => if s.post_id == postId then f s else s) }

/-- `createPost` (postService.ts 23-51): inserts a fresh row; the caller
supplies the autoincremented id. -/
def createPost (st : Store) (newId channelId : Nat) (text : String)
    (status : PostStatus) : Store :=
  { st with posts := st.posts ++
      [{ id := newId, channel_id := channelId, text := text, status := status,
         telegram_message_id := none, published_at := none, media := [], buttons := [] }] }

/-- `addMedia` (postService.ts 138-168): counts the post's media rows and
inserts with `position := count`. -/
def addMedia (st : Store) (postId : Nat) (fileId : String) (ft : MediaType)
    (size : Option Nat) (caption : Option String) : Store :=
  mapPost st postId (fun p =>
    { p with media := p.media ++
        [{ file_id := fileId, file_type := ft, file_size := size,
           caption := caption, position := p.media.length }] })

/-- `addButton` (postService.ts 173-197). -/
def addButton (st : Store) (postId : Nat) (text url : String)
    (row position : Nat) : Store :=
  mapPost st postId (fun p =>
    { p with buttons := p.buttons ++ [{ text := text, url := url, row := row,
                                        position := position }] })

/-- `updatePost(postId, { status })`. -/
def updatePostStatus (st : Store) (postId : Nat) (s : PostStatus) : Store :=
  mapPost st postId (fun p => { p with status := s })

/-- The second update in `publishPostToTelegram` (lines 199-205): stores the
remote message id and the publication timestamp. -/
def setPostPublishedInfo (st : Store) (postId mid now : Nat) : Store :=
  mapPost st postId (fun p =>
    { p with telegram_message_id := some mid, published_at := some now })

/-- `schedulePost` (postService.ts 202-220): creates the PENDING schedule row
(attempts start at 0) and flips the post to SCHEDULED. -/
def schedulePost (st : Store) (postId scheduledAt : Nat) : Store :=
  let st1 := { st with schedules := st.schedules ++
      [{ post_id := postId, scheduled_at := scheduledAt, status := .PENDING,
         attempts := 0, last_error := none, published_at := none }] }
  updatePostStatus st1 postId .SCHEDULED

/-- Environment describing how the Telegram send calls behave for one
delivery: they return a message id or raise (rate limit, missing rights...). -/
inductive SendEnv
  | ok (messageId : Nat)
  | sendFail
deriving DecidableEq

/-- `publishPostToTelegram` (telegramPublishService.ts 14-239).  Loads the
post; on send success updates status to PUBLISHED and then records message id
and timestamp; on a send exception the catch handler sets status FAILED; the
function itself never throws and reports success as a boolean.  (The channel
relation always exists in this model and `MediaType` is exhaustive, so the
early `return false` branches other than post-not-found do not arise.) -/
def publishPostToTelegram (st : Store) (postId now : Nat) (env : SendEnv) :
    Store × Bool :=
  match findPost st postId with
  | none => (st, false)
  | some _ =>
    match env with
    | .ok mid =>
      let st1 := updatePostStatus st postId .PUBLISHED
      (setPostPublishedInfo st1 postId mid now, true)
    | .sendFail => (updatePostStatus st postId .FAILED, false)

/-- The per-record body of `checkAndPublishScheduledPosts`
(postSchedulerService.ts 102-142), on runs where the prisma updates do not
themselves throw: publish, then either mark the schedule PUBLISHED with a
timestamp, or mark it FAILED with `attempts := schedule.attempts + 1` and a
human-readable `last_error`. -/
def checkAndPublishOne (st : Store) (sched : Schedule) (now : Nat)
    (env : SendEnv) : Store :=
  let res := publishPostToTelegram st sched.post_id now env
  if res.2 then
    mapSchedule res.1 sched.post_id
      (fun s => { s with status := .PUBLISHED, published_at := some now })
  else
    mapSchedule res.1 sched.post_id (fun s =>
      { s with
        status := .FAILED
        attempts := sched.attempts + 1
        last_error :=
          some "Failed to publish to Telegram - check telegramPublishService logs" })

/-- The due-item query of the scheduler (lines 60-79): PENDING schedules with
`scheduled_at ≤ now`, oldest first. -/
def dueSchedules (st : Store) (now : Nat) : List Schedule :=
  sortBy (fun a b => decide (a.scheduled_at ≤ b.scheduled_at))
    (st.schedules.filter (fun s => s.status == ScheduleStatus.PENDING
      && s.scheduled_at ≤ now))

/-- A store holding one scheduled post whose schedule is due and has never
been attempted. -/
def c1Store : Store :=
  { posts := [{ id := 1, channel_id := 7, text := "hello", status := .SCHEDULED,
                telegram_message_id := none, published_at := none,
                media := [], buttons := [] }],
    schedules := [{ post_id := 1, scheduled_at := 100, status := .PENDING,
                    attempts := 0, last_error := none, published_at := none }],
    statistics := [] }

def c1Sched : Schedule :=
  { post_id := 1, scheduled_at := 100, status := .PENDING, attempts := 0,
    last_error := none, published_at := none }

/-- C1: the spec (and the repository's own schema notes: "после 3 неудачных
попыток статус меняется на FAILED") requires the schedule to stay PENDING and
be retried until the attempt counter reaches 3.  The code instead marks the
schedule FAILED on the very first failed delivery: after one failing tick the
schedule has status FAILED with attempts = 1, and it is no longer due on any
later tick, so no retry ever happens. -/
theorem c1_first_failure_marks_failed :
    ((checkAndPublishOne c1Store c1Sched 200 SendEnv.sendFail).schedules.map
        (fun s => (s.status, s.attempts)) = [(ScheduleStatus.FAILED, 1)]) ∧
    dueSchedules (checkAndPublishOne c1Store c1Sched 200 SendEnv.sendFail) 1000 = [] := by
  constructor
  · decide
  · decide

/-- C2: on delivery success the code does set Schedule.status = PUBLISHED with
a timestamp and Post.status = PUBLISHED with message id and timestamp, but it
never creates a Statistics record anywhere (the repository's schema notes say
one is created automatically after publication), so `statistics` stays empty. -/
theorem c2_success_no_statistics :
    ((checkAndPublishOne c1Store c1Sched 200 (SendEnv.ok 55)).schedules.map
        (fun s => (s.status, s.published_at)) = [(ScheduleStatus.PUBLISHED, some 200)]) ∧
    ((checkAndPublishOne c1Store c1Sched 200 (SendEnv.ok 55)).posts.map
        (fun p => (p.status, p.telegram_message_id, p.published_at)) =
      [(PostStatus.PUBLISHED, some 55, some 200)]) ∧
    (checkAndPublishOne c1Store c1Sched 200 (SendEnv.ok 55)).statistics = [] := by
  refine ⟨by decide, by decide, by decide⟩

/-! ## Per-record isolation inside one scheduler tick (C5)

The loop body wraps delivery and the status updates in a per-record
`try/catch`, but the catch handler itself performs two awaited prisma updates
that are not guarded; if one of those throws, the exception escapes the loop
to the outer catch and the remaining due records of the tick are skipped.
`TickRecordEnv` records, for one due schedule, whether each fallible step of
the body throws. -/

structure TickRecordEnv where
  publishOk : Bool
  scheduleUpdateThrows : Bool
  catchScheduleUpdateThrows : Bool
  catchPostUpdateThrows : Bool
deriving DecidableEq

/-- A record reaches the per-record catch when the in-try schedule update
throws; the whole tick then aborts iff one of the catch handler's own updates
throws as well. -/
def recordAborts (r : TickRecordEnv) : Bool :=
  r.scheduleUpdateThrows && (r.catchScheduleUpdateThrows || r.catchPostUpdateThrows)

/-- For each due record of a tick (in due order), whether a delivery attempt
was made for it: the `for` loop of `checkAndPublishScheduledPosts` attempts
every record it reaches, and stops early only when a record aborts the tick. -/
def tickAttempted : List TickRecordEnv → List Bool
  | [] => []
  | r :: rest =>
    true :: (if recordAborts r then rest.map (fun _ => false) else tickAttempted rest)

def c5Records : List TickRecordEnv :=
  [{ publishOk := false, scheduleUpdateThrows := true,
     catchScheduleUpdateThrows := true, catchPostUpdateThrows := false },
   { publishOk := true, scheduleUpdateThrows := false,
     catchScheduleUpdateThrows := false, catchPostUpdateThrows := false }]

/-- C5 counterexample: with two due records, an exception while updating the
first record (whose catch-handler update also throws, e.g. the store stays
unavailable) aborts the tick, and the second due record is never attempted —
contradicting the claim that every subsequent due record is still attempted. -/
theorem c5_counterexample :
    tickAttempted c5Records = [true, false] ∧ c5Records.length = 2 := by
  constructor
  · rfl
  · rfl

/-- C5 (amended): within a single tick, an exception raised while delivering
or updating one due record does not abort the processing of the remaining due
records, provided the failure-recovery updates inside the per-record catch
handler do not themselves throw; if a catch-handler update throws, the tick
aborts and the remaining records are skipped until the next tick. -/
theorem c5_per_record_isolation (recs : List TickRecordEnv)
    (h : ∀ r ∈ recs, r.catchScheduleUpdateThrows = false ∧
      r.catchPostUpdateThrows = false) :
    tickAttempted recs = recs.map (fun _ => true) := by
  induction recs with
  | nil => rfl
  | cons r rest ih =>
    have hr := h r (List.mem_cons_self r rest)
    have habort : recordAborts r = false := by
      unfold recordAborts
      rw [hr.1, hr.2]
      cases r.scheduleUpdateThrows <;> rfl
    rw [tickAttempted, habort]
    simp only [Bool.false_eq_true, if_false, List.map_cons]
    rw [ih (fun x hx => h x (List.mem_cons_of_mem r hx))]

/-- Witness for `c5_per_record_isolation`: two records whose catch-handler
updates do not throw (the first one still fails delivery and has its in-try
update throw) are both attempted. -/
theorem c5_per_record_isolation_witness :
    tickAttempted
      [{ publishOk := false, scheduleUpdateThrows := true,
         catchScheduleUpdateThrows := false, catchPostUpdateThrows := false },
       { publishOk := true, scheduleUpdateThrows := false,
         catchScheduleUpdateThrows := false, catchPostUpdateThrows := false }] =
      [true, true] :=
  c5_per_record_isolation _ (by decide)

/-! ## Media upload step of the composition flow (C9)

`handleMediaUpload` (mediaInput.ts 114-136) reads the draft's media list,
validates the would-be count with `validateMediaGroupSize` (validators.ts
393-402), and on success appends the file with `position := mediaFiles.length`. -/

structure SessionMediaFile where
  fileId : String
  fileType : MediaType
  fileSize : Option Nat
  position : Nat
  caption : Option String
deriving DecidableEq

structure IncomingMedia where
  fileId : String
  fileType : MediaType
  fileSize : Option Nat
  caption : Option String
deriving DecidableEq

/-- `validateMediaGroupSize` (validators.ts): invalid iff `count > 10`. -/
def validateMediaGroupSize (count : Nat) : Option String :=
  if count > 10 then some "Максимум 10 медиафайлов в одной публикации" else none

/-- One media upload: returns the new list and whether the file was accepted. -/
def handleMediaUpload (mediaFiles : List SessionMediaFile) (m : IncomingMedia) :
    List SessionMediaFile × Bool :=
  match validateMediaGroupSize (mediaFiles.length + 1) with
  | some _ => (mediaFiles, false)
  | none =>
    (mediaFiles ++
      [{ fileId := m.fileId, fileType := m.fileType, fileSize := m.fileSize,
         position := mediaFiles.length, caption := m.caption }], true)

/-- Uploading a sequence of media items one after the other. -/
def uploadAll : List SessionMediaFile → List IncomingMedia → List SessionMediaFile
  | ms, [] => ms
  | ms, m :: rest => uploadAll (handleMediaUpload ms m).1 rest

/-- The session records the uploads produce when appended starting at
position `start`. -/
def decorateUploads : List IncomingMedia → Nat → List SessionMediaFile
  | [], _ => []
  | m :: rest, start =>
    { fileId := m.fileId, fileType := m.fileType, fileSize := m.fileSize,
      position := start, caption := m.caption } :: decorateUploads rest (start + 1)

theorem uploadAll_eq (items : List IncomingMedia) :
    ∀ ms : List SessionMediaFile, ms.length + items.length ≤ 10 →
      uploadAll ms items = ms ++ decorateUploads items ms.length := by
  induction items with
  | nil => intro ms _; simp [uploadAll, decorateUploads]
  | cons m rest ih =>
    intro ms hlen
    have hcount : ¬ ms.length + 1 > 10 := by
      simp only [List.length_cons] at hlen
      omega
    have hstep : handleMediaUpload ms m =
        (ms ++ [{ fileId := m.fileId, fileType := m.fileType, fileSize := m.fileSize, position := ms.length, caption := m.caption }], true) := by
      unfold handleMediaUpload validateMediaGroupSize
      simp [hcount]
    have hrec := ih (ms ++ [{ fileId := m.fileId, fileType := m.fileType, fileSize := m.fileSize, position := ms.length, caption := m.caption }])
      (by simp only [List.length_append, List.length_cons, List.length_nil] at hlen ⊢
          omega)
    rw [uploadAll, hstep]
    simp only [List.length_append, List.length_cons, List.length_nil] at hrec
    rw [hrec]
    simp [decorateUploads, List.append_assoc]

theorem decorateUploads_positions (items : List IncomingMedia) :
    ∀ start : Nat,
      (decorateUploads items start).map (fun f => f.position) =
        List.range' start items.length := by
  induction items with
  | nil => intro start; rfl
  | cons m rest ih =>
    intro start
    simp [decorateUploads, List.range', ih (start + 1)]

theorem decorateUploads_fileIds (items : List IncomingMedia) :
    ∀ start : Nat,
      (decorateUploads items start).map (fun f => f.fileId) =
        items.map (fun m => m.fileId) := by
  induction items with
  | nil => intro start; rfl
  | cons m rest ih =>
    intro start
    simp [decorateUploads, ih (start + 1)]

/-- C9: appending N media items in sequence (N ≤ 10) to an empty draft
assigns them positions 0..N-1 in append order; an attempt to append an item
when the draft already holds 10 media items is rejected with a validation
error and leaves the media list unchanged. -/
theorem c9_media_positions (items : List IncomingMedia)
    (hN : items.length ≤ 10) :
    ((uploadAll [] items).map (fun f => f.position) = List.range items.length ∧
      (uploadAll [] items).map (fun f => f.fileId) = items.map (fun m => m.fileId)) ∧
    (∀ (ms : List SessionMediaFile) (m : IncomingMedia), ms.length = 10 →
      handleMediaUpload ms m = (ms, false) ∧
      ∃ e, validateMediaGroupSize (ms.length + 1) = some e) := by
  constructor
  · have h0 := uploadAll_eq items [] (by simpa using hN)
    simp only [List.nil_append] at h0
    rw [h0]
    constructor
    · rw [decorateUploads_positions, List.range_eq_range']
      rfl
    · rw [decorateUploads_fileIds]
  · intro ms m hms
    have h11 : validateMediaGroupSize (ms.length + 1) =
        some "Максимум 10 медиафайлов в одной публикации" := by
      unfold validateMediaGroupSize
      rw [hms]
      rfl
    constructor
    · unfold handleMediaUpload
      rw [h11]
    · exact ⟨_, h11⟩

/-- Witness for `c9_media_positions`: three uploads get positions 0, 1, 2 and
an 11th upload onto a full draft is rejected unchanged. -/
theorem c9_media_positions_witness :
    ((uploadAll [] [⟨"f0", .PHOTO, none, none⟩, ⟨"f1", .VIDEO, some 5, none⟩,
        ⟨"f2", .DOCUMENT, none, some "cap"⟩]).map (fun f => f.position) =
      List.range 3) ∧
    (uploadAll [] [⟨"f0", .PHOTO, none, none⟩, ⟨"f1", .VIDEO, some 5, none⟩,
        ⟨"f2", .DOCUMENT, none, some "cap"⟩]).map (fun f => f.fileId) =
      ["f0", "f1", "f2"] :=
  ⟨(c9_media_positions [⟨"f0", .PHOTO, none, none⟩, ⟨"f1", .VIDEO, some 5, none⟩,
      ⟨"f2", .DOCUMENT, none, some "cap"⟩] (by decide)).1.1,
    (c9_media_positions [⟨"f0", .PHOTO, none, none⟩, ⟨"f1", .VIDEO, some 5, none⟩,
      ⟨"f2", .DOCUMENT, none, some "cap"⟩] (by decide)).1.2⟩

/-! ## Composition commit paths (mediaInput.ts)

The session draft and the three terminal actions.  A commit is a sequence of
awaited repository mutations; `failAt = some k` means the k-th mutation (0
based) rejects, which the handler's `catch` turns into an error reply that
leaves the session draft untouched. -/

structure SessionButton where
  text : String
  url : String
  row : Nat
  position : Nat
deriving DecidableEq

structure PostDraft where
  channelId : Option Nat
  text : Option String
  mediaFiles : List SessionMediaFile
  buttons : List SessionButton
  scheduledAt : Option Nat
  status : Option PostStatus
deriving DecidableEq

inductive Reply
  | insufficientData
  | draftSaved
  | scheduledCreated
  | publishedOk
  | savedNotPublished
  | saveDraftError
  | scheduleError
deriving DecidableEq

def runOps (st : Store) (ops : List (Store → Store)) : Store :=
  ops.foldl (fun s f => f s) st

theorem runOps_append (st : Store) (a b : List (Store → Store)) :
    runOps st (a ++ b) = runOps (runOps st a) b := by
  unfold runOps
  exact List.foldl_append _ _ _ _

/-- The `for (const media of draft.mediaFiles) await addMedia(...)` loop. -/
def draftMediaOps (postId : Nat) (ms : List SessionMediaFile) :
    List (Store → Store) :=
  ms.map (fun m => fun st => addMedia st postId m.fileId m.fileType m.fileSize m.caption)

/-- The `for (const button of draft.buttons) await addButton(...)` loop. -/
def draftButtonOps (postId : Nat) (bs : List SessionButton) :
    List (Store → Store) :=
  bs.map (fun b => fun st => addButton st postId b.text b.url b.row b.position)

/-- Repository mutations of `handleSaveDraft` (mediaInput.ts 610-674). -/
def saveDraftOps (d : PostDraft) (newId ch : Nat) (t : String) :
    List (Store → Store) :=
  (fun st => createPost st newId ch t .DRAFT) ::
    (draftMediaOps newId d.mediaFiles ++ draftButtonOps newId d.buttons)

/-- Repository mutations of `handleScheduledPost` (mediaInput.ts 767-876). -/
def scheduledOps (d : PostDraft) (newId ch : Nat) (t : String) (sat : Nat) :
    List (Store → Store) :=
  (fun st => createPost st newId ch t .SCHEDULED) ::
    (draftMediaOps newId d.mediaFiles ++ draftButtonOps newId d.buttons ++
      [fun st => schedulePost st newId sat])

/-- `handleSaveDraft`: guard, commit, reply, and only then clear the draft;
the catch branch replies with the generic failure text and does not touch the
session. -/
def handleSaveDraft (sess : Option PostDraft) (st : Store) (newId : Nat)
    (failAt : Option Nat) : Option PostDraft × Store × Reply :=
  match sess with
  | none => (none, st, .insufficientData)
  | some d =>
    match d.channelId, d.text with
    | some ch, some t =>
      let ops := saveDraftOps d newId ch t
      match failAt with
      | some k =>
        if k < ops.length then (some d, runOps st (ops.take k), .saveDraftError)
        else (none, runOps st ops, .draftSaved)
      | none => (none, runOps st ops, .draftSaved)
    | _, _ => (sess, st, .insufficientData)

/-- `handleScheduledPost`: as `handleSaveDraft` but ending in `schedulePost`;
notification failures are swallowed before `clearPostDraft`, so the draft is
cleared on every completed commit. -/
def handleScheduledPost (sess : Option PostDraft) (st : Store) (newId : Nat)
    (failAt : Option Nat) : Option PostDraft × Store × Reply :=
  match sess with
  | none => (none, st, .insufficientData)
  | some d =>
    match d.channelId, d.text, d.scheduledAt with
    | some ch, some t, some sat =>
      let ops := scheduledOps d newId ch t sat
      match failAt with
      | some k =>
        if k < ops.length then (some d, runOps st (ops.take k), .scheduleError)
        else (none, runOps st ops, .scheduledCreated)
      | none => (none, runOps st ops, .scheduledCreated)
    | _, _, _ => (sess, st, .insufficientData)

/-- `handlePublishNow` (mediaInput.ts 508-594): creates the post with status
PUBLISHED, adds media and buttons, delivers, reports, and clears the draft
whether or not delivery succeeded. -/
def handlePublishNow (sess : Option PostDraft) (st : Store) (newId now : Nat)
    (env : SendEnv) : Option PostDraft × Store × Reply :=
  match sess with
  | none => (none, st, .insufficientData)
  | some d =>
    match d.channelId, d.text with
    | some ch, some t =>
      let st1 := runOps st ((fun s => createPost s newId ch t .PUBLISHED) ::
        (draftMediaOps newId d.mediaFiles ++ draftButtonOps newId d.buttons))
      let res := publishPostToTelegram st1 newId now env
      (none, res.1, if res.2 then .publishedOk else .savedNotPublished)
    | _, _ => (sess, st, .insufficientData)

/-- C6: on the commit paths of the composition flow the draft is cleared
only after all repository mutations have succeeded; if the k-th repository
call fails, the draft remains in the session and the admin receives the
generic failure message for that path. -/
theorem c6_draft_cleared_only_after_commit (d : PostDraft) (st : Store)
    (newId k ch sat : Nat) (t : String)
    (hch : d.channelId = some ch) (ht : d.text = some t)
    (hat : d.scheduledAt = some sat) :
    (k < (saveDraftOps d newId ch t).length →
      handleSaveDraft (some d) st newId (some k) =
        (some d, runOps st ((saveDraftOps d newId ch t).take k), .saveDraftError)) ∧
    (handleSaveDraft (some d) st newId none =
      (none, runOps st (saveDraftOps d newId ch t), .draftSaved)) ∧
    (k < (scheduledOps d newId ch t sat).length →
      handleScheduledPost (some d) st newId (some k) =
        (some d, runOps st ((scheduledOps d newId ch t sat).take k), .scheduleError)) ∧
    (handleScheduledPost (some d) st newId none =
      (none, runOps st (scheduledOps d newId ch t sat), .scheduledCreated)) := by
  refine ⟨?_, ?_, ?_, ?_⟩
  · intro hk
    unfold handleSaveDraft
    dsimp only
    rw [hch, ht]
    simp [hk]
  · unfold handleSaveDraft
    dsimp only
    rw [hch, ht]
  · intro hk
    unfold handleScheduledPost
    dsimp only
    rw [hch, ht, hat]
    simp [hk]
  · unfold handleScheduledPost
    dsimp only
    rw [hch, ht, hat]

def c6Draft : PostDraft :=
  { channelId := some 5, text := some "hi", mediaFiles := [], buttons := [],
    scheduledAt := some 42, status := none }

def emptyStore : Store := { posts := [], schedules := [], statistics := [] }

/-- Witness for `c6_draft_cleared_only_after_commit`: a failure of the very
first repository call (createPost) leaves the draft in the session with the
store untouched, on both commit paths. -/
theorem c6_draft_cleared_only_after_commit_witness :
    handleSaveDraft (some c6Draft) emptyStore 1 (some 0) =
      (some c6Draft, emptyStore, Reply.saveDraftError) ∧
    handleScheduledPost (some c6Draft) emptyStore 1 (some 0) =
      (some c6Draft, emptyStore, Reply.scheduleError) := by
  have h := c6_draft_cleared_only_after_commit c6Draft emptyStore 1 0 5 42 "hi"
    rfl rfl rfl
  exact ⟨h.1 (by decide), h.2.2.1 (by decide)⟩

/-! ## Composing commits out of single-post updates

Every mutation after `createPost` in a commit only rewrites the freshly
created post, so a whole commit collapses to "append one post built by a fold
of per-post functions".  These lemmas make that precise. -/

def newPostRec (i ch : Nat) (t : String) (s0 : PostStatus) : Post :=
  { id := i, channel_id := ch, text := t, status := s0,
    telegram_message_id := none, published_at := none, media := [], buttons := [] }

theorem map_eq_self_of {α : Type} {f : α → α} {l : List α}
    (h : ∀ a ∈ l, f a = a) : l.map f = l := by
  induction l with
  | nil => rfl
  | cons a as ih =>
    rw [List.map_cons, h a (List.mem_cons_self a as),
      ih (fun x hx => h x (List.mem_cons_of_mem a hx))]

theorem mapPost_id (st : Store) (i : Nat) : mapPost st i (fun p => p) = st := by
  unfold mapPost
  have : st.posts.map (fun p => if p.id == i then p else p) = st.posts :=
    map_eq_self_of (fun p _ => by by_cases h : p.id == i <;> simp [h])
  rw [this]

theorem mapPost_mapPost (st : Store) (i : Nat) (f g : Post → Post)
    (hf : ∀ p, (f p).id = p.id) :
    mapPost (mapPost st i f) i g = mapPost st i (fun p => g (f p)) := by
  unfold mapPost
  simp only [List.map_map]
  congr 1
  apply List.map_congr_left
  intro p _
  by_cases h : p.id == i
  · simp [Function.comp, h, hf p]
  · simp [Function.comp, h]

theorem runOps_mapPost (i : Nat) (gs : List (Post → Post))
    (hid : ∀ g ∈ gs, ∀ p, (g p).id = p.id) :
    ∀ st : Store, runOps st (gs.map (fun g => fun s => mapPost s i g)) =
      mapPost st i (fun p => gs.foldl (fun q g => g q) p) := by
  induction gs with
  | nil => intro st; rw [List.map_nil]; exact (mapPost_id st i).symm
  | cons g gs ih =>
    intro st
    have hg := hid g (List.mem_cons_self g gs)
    rw [List.map_cons]
    have step : runOps st ((fun s => mapPost s i g) ::
        gs.map (fun g => fun s => mapPost s i g)) =
        runOps (mapPost st i g) (gs.map (fun g => fun s => mapPost s i g)) := rfl
    rw [step, ih (fun g' h' => hid g' (List.mem_cons_of_mem g h')) (mapPost st i g),
      mapPost_mapPost st i g _ hg]
    rfl

theorem mapPost_createPost (st : Store) (i ch : Nat) (t : String)
    (s0 : PostStatus) (F : Post → Post)
    (hfresh : ∀ p ∈ st.posts, p.id ≠ i) :
    mapPost (createPost st i ch t s0) i F =
      { st with posts := st.posts ++ [F (newPostRec i ch t s0)] } := by
  unfold mapPost createPost
  simp only [List.map_append]
  congr 2
  · exact map_eq_self_of (fun p hp => by simp [hfresh p hp])
  · simp [newPostRec]

/-- A full commit: create the post, then run single-post rewrites on it. -/
theorem commitRun (st : Store) (i ch : Nat) (t : String) (s0 : PostStatus)
    (gs : List (Post → Post))
    (hid : ∀ g ∈ gs, ∀ p, (g p).id = p.id)
    (hfresh : ∀ p ∈ st.posts, p.id ≠ i) :
    runOps st ((fun s => createPost s i ch t s0) ::
        gs.map (fun g => fun s => mapPost s i g)) =
      { st with posts := st.posts ++
          [gs.foldl (fun q g => g q) (newPostRec i ch t s0)] } := by
  have step : runOps st ((fun s => createPost s i ch t s0) ::
      gs.map (fun g => fun s => mapPost s i g)) =
      runOps (createPost st i ch t s0) (gs.map (fun g => fun s => mapPost s i g)) := rfl
  rw [step, runOps_mapPost i gs hid, mapPost_createPost st i ch t s0 _ hfresh]

/-- `addMedia` as a rewrite of the owning post. -/
def draftMediaFns (ms : List SessionMediaFile) : List (Post → Post) :=
  ms.map (fun m => fun p =>
    { p with media := p.media ++ [{ file_id := m.fileId, file_type := m.fileType, file_size := m.fileSize, caption := m.caption, position := p.media.length }] })

/-- `addButton` as a rewrite of the owning post. -/
def draftButtonFns (bs : List SessionButton) : List (Post → Post) :=
  bs.map (fun b => fun p =>
    { p with buttons := p.buttons ++ [{ text := b.text, url := b.url, row := b.row, position := b.position }] })

theorem draftMediaOps_eq (i : Nat) (ms : List SessionMediaFile) :
    draftMediaOps i ms = (draftMediaFns ms).map (fun g => fun s => mapPost s i g) := by
  unfold draftMediaOps draftMediaFns
  rw [List.map_map]
  rfl

theorem draftButtonOps_eq (i : Nat) (bs : List SessionButton) :
    draftButtonOps i bs = (draftButtonFns bs).map (fun g => fun s => mapPost s i g) := by
  unfold draftButtonOps draftButtonFns
  rw [List.map_map]
  rfl

theorem foldl_fns_pres {β : Type} (proj : Post → β) (gs : List (Post → Post))
    (h : ∀ g ∈ gs, ∀ p, proj (g p) = proj p) :
    ∀ p, proj (gs.foldl (fun q g => g q) p) = proj p := by
  induction gs with
  | nil => intro p; rfl
  | cons g gs ih =>
    intro p
    rw [List.foldl_cons, ih (fun g' h' => h g' (List.mem_cons_of_mem g h')) (g p),
      h g (List.mem_cons_self g gs) p]

theorem draftFns_pres (ms : List SessionMediaFile) (bs : List SessionButton) :
    ∀ g ∈ draftMediaFns ms ++ draftButtonFns bs,
      (∀ p, (g p).id = p.id) ∧ (∀ p, (g p).status = p.status) ∧
      (∀ p, (g p).telegram_message_id = p.telegram_message_id) ∧
      (∀ p, (g p).published_at = p.published_at) := by
  intro g hg
  rcases List.mem_append.mp hg with hg | hg
  · rcases List.mem_map.mp hg with ⟨m, _, rfl⟩
    exact ⟨fun p => rfl, fun p => rfl, fun p => rfl, fun p => rfl⟩
  · rcases List.mem_map.mp hg with ⟨b, _, rfl⟩
    exact ⟨fun p => rfl, fun p => rfl, fun p => rfl, fun p => rfl⟩

theorem find?_append_fresh {l : List Post} {q : Post} {i : Nat}
    (hfresh : ∀ p ∈ l, p.id ≠ i) (hq : q.id = i) :
    (l ++ [q]).find? (fun p => p.id == i) = some q := by
  induction l with
  | nil => simp [List.find?, hq]
  | cons p rest ih =>
    have hp : (p.id == i) = false := by
      simp [hfresh p (List.mem_cons_self p rest)]
    rw [List.cons_append, List.find?_cons, hp]
    exact ih (fun x hx => hfresh x (List.mem_cons_of_mem p hx))

/-- C10: on the publish-now path, when delivery fails after the post row was
created, the post stays in the durable store with status FAILED (set by the
delivery engine's catch) and no remote message id, the admin gets the
"saved but not published" reply, and the draft is cleared anyway. -/
theorem c10_publish_now_failure (st : Store) (d : PostDraft)
    (newId now ch : Nat) (t : String)
    (hch : d.channelId = some ch) (ht : d.text = some t)
    (hfresh : ∀ p ∈ st.posts, p.id ≠ newId) :
    (handlePublishNow (some d) st newId now .sendFail).1 = none ∧
    (handlePublishNow (some d) st newId now .sendFail).2.2 = .savedNotPublished ∧
    (∃ p, findPost (handlePublishNow (some d) st newId now .sendFail).2.1 newId =
        some p ∧ p.status = .FAILED ∧ p.telegram_message_id = none) := by
  set gs := draftMediaFns d.mediaFiles ++ draftButtonFns d.buttons with hgs
  have hid : ∀ g ∈ gs, ∀ p, (g p).id = p.id :=
    fun g hg => (draftFns_pres d.mediaFiles d.buttons g hg).1
  set P := gs.foldl (fun q g => g q) (newPostRec newId ch t .PUBLISHED) with hP
  have hPid : P.id = newId := by
    rw [hP, foldl_fns_pres (fun p => p.id) gs hid]
    rfl
  have hPmid : P.telegram_message_id = none := by
    rw [hP, foldl_fns_pres (fun p => p.telegram_message_id) gs
      (fun g hg => (draftFns_pres d.mediaFiles d.buttons g hg).2.2.1)]
    rfl
  have hst1 : runOps st ((fun s => createPost s newId ch t .PUBLISHED) ::
      (draftMediaOps newId d.mediaFiles ++ draftButtonOps newId d.buttons)) =
      { st with posts := st.posts ++ [P] } := by
    rw [draftMediaOps_eq, draftButtonOps_eq, ← List.map_append]
    exact commitRun st newId ch t .PUBLISHED gs hid hfresh
  have hfind1 : findPost { st with posts := st.posts ++ [P] } newId = some P := by
    unfold findPost
    exact find?_append_fresh hfresh hPid
  have hmap : updatePostStatus { st with posts := st.posts ++ [P] } newId .FAILED =
      { st with posts := st.posts ++ [{ P with status := PostStatus.FAILED }] } := by
    unfold updatePostStatus mapPost
    dsimp only
    rw [List.map_append]
    congr 2
    · exact map_eq_self_of (fun p hp => by simp [hfresh p hp])
    · simp [hPid]
  unfold handlePublishNow
  dsimp only
  rw [hch, ht]
  dsimp only
  rw [hst1]
  unfold publishPostToTelegram
  rw [hfind1]
  dsimp only
  rw [hmap]
  refine ⟨rfl, rfl, ⟨{ P with status := PostStatus.FAILED }, ?_, rfl, hPmid⟩⟩
  unfold findPost
  exact find?_append_fresh hfresh hPid

def c10Draft : PostDraft :=
  { channelId := some 3, text := some "news", mediaFiles := [], buttons := [],
    scheduledAt := none, status := none }

def c10Store : Store := { posts := [], schedules := [], statistics := [] }

/-- Witness for `c10_publish_now_failure` on a concrete draft and store. -/
theorem c10_publish_now_failure_witness :
    (handlePublishNow (some c10Draft) c10Store 1 9 SendEnv.sendFail).1 = none ∧
    (handlePublishNow (some c10Draft) c10Store 1 9 SendEnv.sendFail).2.2 =
      Reply.savedNotPublished ∧
    (∃ p, findPost (handlePublishNow (some c10Draft) c10Store 1 9
        SendEnv.sendFail).2.1 1 = some p ∧
      p.status = PostStatus.FAILED ∧ p.telegram_message_id = none) :=
  c10_publish_now_failure c10Store c10Draft 1 9 3 "news" rfl rfl
    (by intro p hp; simp [c10Store] at hp)

/-! ## The remote-message-id invariant (C3)

`handlePublishNow` creates the post row with status PUBLISHED *before* any
send call; every awaited prisma write durably commits, so the store state
right after `createPost` is reachable and violates
"remote-message-id is set iff status = PUBLISHED". -/

def postRMI (p : Post) : Prop :=
  p.telegram_message_id ≠ none ↔ p.status = PostStatus.PUBLISHED

instance (p : Post) : Decidable (postRMI p) := by
  unfold postRMI; infer_instance

def remoteIdInvariant (st : Store) : Prop := ∀ p ∈ st.posts, postRMI p

instance (st : Store) : Decidable (remoteIdInvariant st) := by
  unfold remoteIdInvariant; infer_instance

/-- The primitive durable writes `publishPostToTelegram` performs once the
post is loaded. -/
def publishWriteOps (i now : Nat) (env : SendEnv) : List (Store → Store) :=
  match env with
  | .ok mid => [fun st => updatePostStatus st i .PUBLISHED,
      fun st => setPostPublishedInfo st i mid now]
  | .sendFail => [fun st => updatePostStatus st i .FAILED]

/-- Every durable state of a publish-now run, in commit order: the state
before the handler, after `createPost`, after each `addMedia`/`addButton`,
and after each write of the delivery engine. -/
def publishNowStates (st : Store) (d : PostDraft) (newId now : Nat)
    (env : SendEnv) : List Store :=
  match d.channelId, d.text with
  | some ch, some t =>
    List.scanl (fun s f => f s) st
      ((fun s => createPost s newId ch t .PUBLISHED) ::
        (draftMediaOps newId d.mediaFiles ++ draftButtonOps newId d.buttons) ++
        publishWriteOps newId now env)
  | _, _ => [st]

def c3Draft : PostDraft :=
  { channelId := some 1, text := some "hello", mediaFiles := [], buttons := [],
    scheduledAt := none, status := none }

/-- C3 counterexample: starting from the empty store, the durable state right
after the `createPost` write of a publish-now run (the second entry of the
trace) contains a post with status PUBLISHED and no remote message id, so the
claimed invariant does not hold in every reachable durable state. -/
theorem c3_counterexample :
    ∃ s ∈ publishNowStates { posts := [], schedules := [], statistics := [] }
      c3Draft 1 50 (SendEnv.ok 9), ¬ remoteIdInvariant s := by
  refine ⟨{ posts := [{ id := 1, channel_id := 1, text := "hello", status := PostStatus.PUBLISHED, telegram_message_id := none, published_at := none, media := [], buttons := [] }], schedules := [], statistics := [] }, ?_, ?_⟩
  · decide
  · decide

theorem map_fresh_append {l : List Post} {q : Post} {i : Nat} (f : Post → Post)
    (hfresh : ∀ p ∈ l, p.id ≠ i) (hq : q.id = i) :
    (l ++ [q]).map (fun p => if p.id == i then f p else p) = l ++ [f q] := by
  rw [List.map_append, map_eq_self_of (fun p hp => by simp [hfresh p hp])]
  simp [hq]

theorem remoteIdInvariant_of_append {st st' : Store} {q : Post}
    (hposts : st'.posts = st.posts ++ [q]) (hinv : remoteIdInvariant st)
    (hq : postRMI q) : remoteIdInvariant st' := by
  intro p hp
  rw [hposts] at hp
  rcases List.mem_append.mp hp with hp | hp
  · exact hinv p hp
  · rw [List.mem_singleton.mp hp]
    exact hq

theorem remoteIdInvariant_mapPost {st : Store} {i : Nat} {f : Post → Post}
    (hinv : remoteIdInvariant st)
    (h : ∀ p ∈ st.posts, p.id = i → postRMI (f p)) :
    remoteIdInvariant (mapPost st i f) := by
  intro q hq
  unfold mapPost at hq
  rcases List.mem_map.mp hq with ⟨p, hp, rfl⟩
  by_cases hid : p.id == i
  · simp only [hid, if_true]
    exact h p hp (by simpa using hid)
  · simp only [hid, Bool.false_eq_true, if_false]
    exact hinv p hp

theorem remoteIdInvariant_same_posts {st st' : Store}
    (hposts : st'.posts = st.posts) (hinv : remoteIdInvariant st) :
    remoteIdInvariant st' := by
  intro p hp
  rw [hposts] at hp
  exact hinv p hp

/-! ## duplicatePost (postService.ts 225-263, C8)

The loops copy media and buttons through `addMedia`/`addButton`, reading the
original through `getPostById`, which sorts media by position and buttons by
(row, position).  The JS coercions `media.file_size || undefined` and
`media.caption || undefined` drop falsy values (0 and the empty string). -/

def jsFalsyNat (x : Option Nat) : Option Nat :=
  match x with
  | none => none
  | some n => if n = 0 then none else some n

def jsFalsyString (x : Option String) : Option String :=
  match x with
  | none => none
  | some s => if s = "" then none else some s

def mediaPosLe (a b : Media) : Bool := decide (a.position ≤ b.position)

def buttonOrdLe (a b : PostButton) : Bool :=
  decide (a.row < b.row ∨ (a.row = b.row ∧ a.position ≤ b.position))

/-- Media relation as returned by `getPostById` (orderBy position asc). -/
def getPostMediaSorted (p : Post) : List Media := sortBy mediaPosLe p.media

/-- Buttons relation as returned by `getPostById` (orderBy row, position asc). -/
def getPostButtonsSorted (p : Post) : List PostButton := sortBy buttonOrdLe p.buttons

def duplicatePost (st : Store) (postId newId : Nat) : Option Store :=
  match findPost st postId with
  | none => none
  | some original =>
    let st1 := createPost st newId original.channel_id original.text .DRAFT
    let st2 := runOps st1 ((getPostMediaSorted original).map (fun m => fun s =>
      addMedia s newId m.file_id m.file_type (jsFalsyNat m.file_size)
        (jsFalsyString m.caption)))
    let st3 := runOps st2 ((getPostButtonsSorted original).map (fun b => fun s =>
      addButton s newId b.text b.url b.row b.position))
    some st3

def dupMediaFns (ms : List Media) : List (Post → Post) :=
  ms.map (fun m => fun p =>
    { p with media := p.media ++ [{ file_id := m.file_id, file_type := m.file_type, file_size := jsFalsyNat m.file_size, caption := jsFalsyString m.caption, position := p.media.length }] })

def dupButtonFns (bs : List PostButton) : List (Post → Post) :=
  bs.map (fun b => fun p =>
    { p with buttons := p.buttons ++ [{ text := b.text, url := b.url, row := b.row, position := b.position }] })

theorem dupMediaOps_eq (i : Nat) (ms : List Media) :
    ms.map (fun m => fun s => addMedia s i m.file_id m.file_type
        (jsFalsyNat m.file_size) (jsFalsyString m.caption)) =
      (dupMediaFns ms).map (fun g => fun s => mapPost s i g) := by
  unfold dupMediaFns
  rw [List.map_map]
  rfl

theorem dupButtonOps_eq (i : Nat) (bs : List PostButton) :
    bs.map (fun b => fun s => addButton s i b.text b.url b.row b.position) =
      (dupButtonFns bs).map (fun g => fun s => mapPost s i g) := by
  unfold dupButtonFns
  rw [List.map_map]
  rfl

theorem dupFns_pres (ms : List Media) (bs : List PostButton) :
    ∀ g ∈ dupMediaFns ms ++ dupButtonFns bs,
      (∀ p, (g p).id = p.id) ∧ (∀ p, (g p).status = p.status) ∧
      (∀ p, (g p).telegram_message_id = p.telegram_message_id) ∧
      (∀ p, (g p).published_at = p.published_at) := by
  intro g hg
  rcases List.mem_append.mp hg with hg | hg
  · rcases List.mem_map.mp hg with ⟨m, _, rfl⟩
    exact ⟨fun p => rfl, fun p => rfl, fun p => rfl, fun p => rfl⟩
  · rcases List.mem_map.mp hg with ⟨b, _, rfl⟩
    exact ⟨fun p => rfl, fun p => rfl, fun p => rfl, fun p => rfl⟩

/-- `duplicatePost` in the collapsed commit form. -/
theorem duplicatePost_commit (st : Store) (postId newId : Nat) (orig : Post)
    (hfind : findPost st postId = some orig)
    (hfresh : ∀ p ∈ st.posts, p.id ≠ newId) :
    duplicatePost st postId newId = some { st with posts := st.posts ++
      [(dupMediaFns (getPostMediaSorted orig) ++
          dupButtonFns (getPostButtonsSorted orig)).foldl (fun q g => g q)
        (newPostRec newId orig.channel_id orig.text .DRAFT)] } := by
  unfold duplicatePost
  rw [hfind]
  dsimp only
  rw [dupMediaOps_eq, dupButtonOps_eq]
  have hsplit : ∀ stx : Store,
      runOps (runOps stx ((dupMediaFns (getPostMediaSorted orig)).map
          (fun g => fun s => mapPost s newId g)))
        ((dupButtonFns (getPostButtonsSorted orig)).map
          (fun g => fun s => mapPost s newId g)) =
      runOps stx (((dupMediaFns (getPostMediaSorted orig)) ++
          (dupButtonFns (getPostButtonsSorted orig))).map
          (fun g => fun s => mapPost s newId g)) := by
    intro stx
    rw [List.map_append, runOps_append]
  rw [hsplit]
  have hstep : runOps (createPost st newId orig.channel_id orig.text .DRAFT)
      (((dupMediaFns (getPostMediaSorted orig)) ++
        (dupButtonFns (getPostButtonsSorted orig))).map
        (fun g => fun s => mapPost s newId g)) =
      runOps st ((fun s => createPost s newId orig.channel_id orig.text .DRAFT) ::
        ((dupMediaFns (getPostMediaSorted orig)) ++
          (dupButtonFns (getPostButtonsSorted orig))).map
          (fun g => fun s => mapPost s newId g)) := rfl
  rw [hstep, commitRun st newId orig.channel_id orig.text .DRAFT _
    (fun g hg => (dupFns_pres _ _ g hg).1) hfresh]

theorem postRMI_none_not_pub {p : Post} (hm : p.telegram_message_id = none)
    (hs : p.status ≠ PostStatus.PUBLISHED) : postRMI p := by
  unfold postRMI
  rw [hm]
  exact ⟨fun h => absurd rfl h, fun h => absurd h hs⟩

theorem postRMI_some_pub {p : Post} {m : Nat}
    (hm : p.telegram_message_id = some m) (hs : p.status = PostStatus.PUBLISHED) :
    postRMI p := by
  unfold postRMI
  rw [hm, hs]
  exact ⟨fun _ => rfl, fun _ => by simp⟩

/-- C3 (amended): the remote-message-id iff PUBLISHED invariant holds in the
durable state at the completion of each post operation (draft save, schedule
creation, publish-now, scheduled delivery, duplicate) run without repository
failures, although intermediate durable states of the publish-now path
violate it (see the counterexample). -/
theorem c3_invariant_at_completion (st : Store) (d : PostDraft)
    (sched : Schedule) (newId now : Nat) (env : SendEnv)
    (hinv : remoteIdInvariant st)
    (hfresh : ∀ p ∈ st.posts, p.id ≠ newId)
    (hsched : ∀ p ∈ st.posts, p.id = sched.post_id →
      p.telegram_message_id = none) :
    remoteIdInvariant (handleSaveDraft (some d) st newId none).2.1 ∧
    remoteIdInvariant (handleScheduledPost (some d) st newId none).2.1 ∧
    remoteIdInvariant (handlePublishNow (some d) st newId now env).2.1 ∧
    remoteIdInvariant (checkAndPublishOne st sched now env) ∧
    (∀ (st' : Store) (origId : Nat), duplicatePost st origId newId = some st' →
      remoteIdInvariant st') := by
  have hidm : ∀ (ms : List SessionMediaFile) (bs : List SessionButton),
      ∀ g ∈ draftMediaFns ms ++ draftButtonFns bs, ∀ p : Post, (g p).id = p.id :=
    fun ms bs g hg => (draftFns_pres ms bs g hg).1
  refine ⟨?_, ?_, ?_, ?_, ?_⟩
  · -- handleSaveDraft
    unfold handleSaveDraft
    dsimp only
    cases hch : d.channelId with
    | none => dsimp only; exact hinv
    | some ch =>
      cases ht : d.text with
      | none => dsimp only; exact hinv
      | some t =>
        dsimp only
        unfold saveDraftOps
        rw [draftMediaOps_eq, draftButtonOps_eq, ← List.map_append,
          commitRun st newId ch t .DRAFT _ (hidm d.mediaFiles d.buttons) hfresh]
        refine remoteIdInvariant_of_append rfl hinv ?_
        refine postRMI_none_not_pub ?_ ?_
        · rw [foldl_fns_pres (fun p => p.telegram_message_id) _
            (fun g hg => (draftFns_pres d.mediaFiles d.buttons g hg).2.2.1)]
          rfl
        · rw [foldl_fns_pres (fun p => p.status) _
            (fun g hg => (draftFns_pres d.mediaFiles d.buttons g hg).2.1)]
          simp [newPostRec]
  · -- handleScheduledPost
    unfold handleScheduledPost
    dsimp only
    cases hch : d.channelId with
    | none => dsimp only; exact hinv
    | some ch =>
      cases ht : d.text with
      | none => dsimp only; exact hinv
      | some t =>
        cases hat : d.scheduledAt with
        | none => dsimp only; exact hinv
        | some sat =>
          dsimp only
          unfold scheduledOps
          rw [draftMediaOps_eq, draftButtonOps_eq,
            ← List.cons_append, runOps_append, ← List.map_append,
            commitRun st newId ch t .SCHEDULED _ (hidm d.mediaFiles d.buttons) hfresh]
          set P := (draftMediaFns d.mediaFiles ++ draftButtonFns d.buttons).foldl
            (fun q g => g q) (newPostRec newId ch t .SCHEDULED) with hPdef
          have hPid : P.id = newId := by
            rw [hPdef, foldl_fns_pres (fun p => p.id) _ (hidm d.mediaFiles d.buttons)]
            rfl
          have hPmid : P.telegram_message_id = none := by
            rw [hPdef, foldl_fns_pres (fun p => p.telegram_message_id) _
              (fun g hg => (draftFns_pres d.mediaFiles d.buttons g hg).2.2.1)]
            rfl
          exact remoteIdInvariant_of_append (map_fresh_append _ hfresh hPid) hinv
            (postRMI_none_not_pub hPmid (by simp))
  · -- handlePublishNow
    unfold handlePublishNow
    dsimp only
    cases hch : d.channelId with
    | none => dsimp only; exact hinv
    | some ch =>
      cases ht : d.text with
      | none => dsimp only; exact hinv
      | some t =>
        dsimp only
        rw [draftMediaOps_eq, draftButtonOps_eq, ← List.map_append,
          commitRun st newId ch t .PUBLISHED _ (hidm d.mediaFiles d.buttons) hfresh]
        set P := (draftMediaFns d.mediaFiles ++ draftButtonFns d.buttons).foldl
          (fun q g => g q) (newPostRec newId ch t .PUBLISHED) with hPdef
        have hPid : P.id = newId := by
          rw [hPdef, foldl_fns_pres (fun p => p.id) _ (hidm d.mediaFiles d.buttons)]
          rfl
        have hPmid : P.telegram_message_id = none := by
          rw [hPdef, foldl_fns_pres (fun p => p.telegram_message_id) _
            (fun g hg => (draftFns_pres d.mediaFiles d.buttons g hg).2.2.1)]
          rfl
        have hfind1 : findPost { st with posts := st.posts ++ [P] } newId = some P := by
          unfold findPost
          exact find?_append_fresh hfresh hPid
        unfold publishPostToTelegram
        rw [hfind1]
        cases env with
        | ok mid =>
          dsimp only
          unfold setPostPublishedInfo updatePostStatus
          rw [mapPost_mapPost _ newId
            (fun p => { p with status := PostStatus.PUBLISHED }) _ (fun p => rfl)]
          exact remoteIdInvariant_of_append (map_fresh_append _ hfresh hPid) hinv
            (postRMI_some_pub rfl rfl)
        | sendFail =>
          dsimp only
          unfold updatePostStatus
          exact remoteIdInvariant_of_append (map_fresh_append _ hfresh hPid) hinv
            (postRMI_none_not_pub hPmid (by simp))
  · -- checkAndPublishOne
    unfold checkAndPublishOne publishPostToTelegram
    cases hfp : findPost st sched.post_id with
    | none =>
      dsimp only
      exact remoteIdInvariant_same_posts rfl hinv
    | some p =>
      cases env with
      | ok mid =>
        dsimp only
        have hres : remoteIdInvariant
            (setPostPublishedInfo (updatePostStatus st sched.post_id .PUBLISHED)
              sched.post_id mid now) := by
          unfold setPostPublishedInfo updatePostStatus
          rw [mapPost_mapPost _ sched.post_id
            (fun p => { p with status := PostStatus.PUBLISHED }) _ (fun p => rfl)]
          exact remoteIdInvariant_mapPost hinv (fun q _ _ => postRMI_some_pub rfl rfl)
        exact hres
      | sendFail =>
        dsimp only
        have hres : remoteIdInvariant (updatePostStatus st sched.post_id .FAILED) := by
          unfold updatePostStatus
          exact remoteIdInvariant_mapPost hinv (fun q hq hqi =>
            postRMI_none_not_pub (hsched q hq hqi) (by simp))
        exact hres
  · -- duplicatePost
    intro st' origId hdup
    cases hfo : findPost st origId with
    | none =>
      unfold duplicatePost at hdup
      rw [hfo] at hdup
      cases hdup
    | some orig =>
      rw [duplicatePost_commit st origId newId orig hfo hfresh] at hdup
      injection hdup with hdup
      rw [← hdup]
      refine remoteIdInvariant_of_append rfl hinv ?_
      refine postRMI_none_not_pub ?_ ?_
      · rw [foldl_fns_pres (fun p => p.telegram_message_id) _
          (fun g hg => (dupFns_pres _ _ g hg).2.2.1)]
        rfl
      · rw [foldl_fns_pres (fun p => p.status) _
          (fun g hg => (dupFns_pres _ _ g hg).2.1)]
        simp [newPostRec]

/-- Witness for `c3_invariant_at_completion` on the empty store. -/
theorem c3_invariant_at_completion_witness :
    remoteIdInvariant (handleSaveDraft (some c3Draft) emptyStore 1 none).2.1 ∧
    remoteIdInvariant (handleScheduledPost (some c3Draft) emptyStore 1 none).2.1 ∧
    remoteIdInvariant
      (handlePublishNow (some c3Draft) emptyStore 1 7 (SendEnv.ok 9)).2.1 ∧
    remoteIdInvariant (checkAndPublishOne emptyStore c1Sched 7 (SendEnv.ok 9)) ∧
    (∀ (st' : Store) (origId : Nat), duplicatePost emptyStore origId 1 = some st' →
      remoteIdInvariant st') :=
  c3_invariant_at_completion emptyStore c3Draft c1Sched 1 7 (SendEnv.ok 9)
    (by decide) (by decide) (by decide)

/-! ## Contents of a duplicated post (C8) -/

theorem jsFalsyNat_eq {x : Option Nat} (h : x ≠ some 0) : jsFalsyNat x = x := by
  cases x with
  | none => rfl
  | some n =>
    unfold jsFalsyNat
    dsimp only
    rw [if_neg]
    intro h0
    exact h (by rw [h0])

theorem jsFalsyString_eq {x : Option String} (h : x ≠ some "") :
    jsFalsyString x = x := by
  cases x with
  | none => rfl
  | some s =>
    unfold jsFalsyString
    dsimp only
    rw [if_neg]
    intro h0
    exact h (by rw [h0])

/-- The media rows `duplicatePost` inserts, given the original rows in
`getPostById` order, starting at position `start`. -/
def dupMediaCopy : List Media → Nat → List Media
  | [], _ => []
  | m :: rest, start =>
    { file_id := m.file_id, file_type := m.file_type, file_size := jsFalsyNat m.file_size, caption := jsFalsyString m.caption, position := start } :: dupMediaCopy rest (start + 1)

theorem dupMediaFns_foldl (ms : List Media) :
    ∀ p : Post, (dupMediaFns ms).foldl (fun q g => g q) p =
      { p with media := p.media ++ dupMediaCopy ms p.media.length } := by
  induction ms with
  | nil =>
    intro p
    cases p
    simp [dupMediaFns, dupMediaCopy]
  | cons m rest ih =>
    intro p
    have step : (dupMediaFns (m :: rest)).foldl (fun q g => g q) p =
        (dupMediaFns rest).foldl (fun q g => g q)
          { p with media := p.media ++ [{ file_id := m.file_id, file_type := m.file_type, file_size := jsFalsyNat m.file_size, caption := jsFalsyString m.caption, position := p.media.length }] } := rfl
    rw [step, ih]
    simp [dupMediaCopy, List.append_assoc]

theorem dupButtonFns_foldl (bs : List PostButton) :
    ∀ p : Post, (dupButtonFns bs).foldl (fun q g => g q) p =
      { p with buttons := p.buttons ++ bs } := by
  induction bs with
  | nil =>
    intro p
    cases p
    simp [dupButtonFns]
  | cons b rest ih =>
    intro p
    have step : (dupButtonFns (b :: rest)).foldl (fun q g => g q) p =
        (dupButtonFns rest).foldl (fun q g => g q)
          { p with buttons := p.buttons ++ [{ text := b.text, url := b.url, row := b.row, position := b.position }] } := rfl
    rw [step, ih]
    cases b
    simp [List.append_assoc]

theorem pairwise_posLe_of_range {ms : List Media}
    (hpos : ms.map (fun m => m.position) = List.range ms.length) :
    ms.Pairwise (fun a b => mediaPosLe a b = true) := by
  have h1 : (ms.map (fun m => m.position)).Pairwise (· < ·) := by
    rw [hpos]
    exact List.pairwise_lt_range ms.length
  have h2 := (List.pairwise_map).mp h1
  refine h2.imp ?_
  intro a b h
  unfold mediaPosLe
  simpa using Nat.le_of_lt h

theorem dupMediaCopy_id : ∀ (ms : List Media) (start : Nat),
    (∀ m ∈ ms, m.caption ≠ some "" ∧ m.file_size ≠ some 0) →
    ms.map (fun m => m.position) = List.range' start ms.length →
    dupMediaCopy ms start = ms := by
  intro ms
  induction ms with
  | nil => intro start _ _; rfl
  | cons m rest ih =>
    intro start hfals hpos
    rw [List.map_cons, List.length_cons] at hpos
    have hrange : List.range' start (rest.length + 1) =
        start :: List.range' (start + 1) rest.length := rfl
    rw [hrange] at hpos
    injection hpos with h1 h2
    unfold dupMediaCopy
    rw [ih (start + 1) (fun x hx => hfals x (List.mem_cons_of_mem m hx)) h2]
    have hc := (hfals m (List.mem_cons_self m rest)).1
    have hs := (hfals m (List.mem_cons_self m rest)).2
    congr 1
    cases m with
    | mk fid ft fs cap pos =>
      simp only at h1 hc hs
      subst h1
      rw [jsFalsyNat_eq hs, jsFalsyString_eq hc]

/-- C8 (amended): duplicating a post produces a new DRAFT post with the same
text, the same buttons up to the (row, position) reordering `getPostById`
applies (an order-preserving permutation), and the same media as long as no
media row carries an empty-string caption, a zero size, or gapped positions
(`media.caption || undefined` and `media.file_size || undefined` drop falsy
values, and `addMedia` reassigns positions 0..n-1); the duplicate has no
schedule, no statistics row, no remote message id and no published
timestamp. -/
theorem c8_duplicate_contents (st : Store) (orig : Post) (newId : Nat)
    (hfind : findPost st orig.id = some orig)
    (hfresh : ∀ p ∈ st.posts, p.id ≠ newId)
    (hpos : orig.media.map (fun m => m.position) = List.range orig.media.length)
    (hfals : ∀ m ∈ orig.media, m.caption ≠ some "" ∧ m.file_size ≠ some 0)
    (hnosched : ∀ s ∈ st.schedules, s.post_id ≠ newId)
    (hnostat : ∀ j ∈ st.statistics, j ≠ newId) :
    ∃ st' : Store, duplicatePost st orig.id newId = some st' ∧
      st'.posts = st.posts ++ [{ id := newId, channel_id := orig.channel_id, text := orig.text, status := .DRAFT, telegram_message_id := none, published_at := none, media := orig.media, buttons := sortBy buttonOrdLe orig.buttons }] ∧
      List.Perm (sortBy buttonOrdLe orig.buttons) orig.buttons ∧
      st'.schedules = st.schedules ∧ st'.statistics = st.statistics ∧
      (∀ s ∈ st'.schedules, s.post_id ≠ newId) ∧
      (∀ j ∈ st'.statistics, j ≠ newId) := by
  have hsorted : getPostMediaSorted orig = orig.media := by
    unfold getPostMediaSorted
    exact sortBy_eq_of_sorted (pairwise_posLe_of_range hpos)
  refine ⟨_, duplicatePost_commit st orig.id newId orig hfind hfresh, ?_, sortBy_perm _ _, rfl, rfl, hnosched, hnostat⟩
  dsimp only
  rw [List.foldl_append, dupMediaFns_foldl, dupButtonFns_foldl, hsorted]
  congr 2
  have hcopy : dupMediaCopy orig.media 0 = orig.media := by
    refine dupMediaCopy_id orig.media 0 hfals ?_
    rw [hpos, List.range_eq_range']
  unfold newPostRec getPostButtonsSorted
  simp [hcopy]

def c8Store : Store :=
  { posts := [{ id := 1, channel_id := 2, text := "orig", status := .PUBLISHED, telegram_message_id := some 77, published_at := some 5, media := [{ file_id := "f", file_type := .PHOTO, file_size := none, caption := some "", position := 0 }], buttons := [] }],
    schedules := [], statistics := [] }

/-- C8 counterexample: the original post's single media row has the
empty-string caption, but `media.caption || undefined` in `duplicatePost`
drops it, so the duplicate's media caption is absent rather than equal. -/
theorem c8_counterexample :
    (duplicatePost c8Store 1 2).map
        (fun s => (findPost s 2).map (fun p => p.media.map (fun m => m.caption))) =
      some (some [none]) ∧
    (findPost c8Store 1).map (fun p => p.media.map (fun m => m.caption)) =
      some [some ""] := by
  constructor
  · decide
  · decide

def c8WStore : Store :=
  { posts := [{ id := 4, channel_id := 2, text := "body", status := .PUBLISHED, telegram_message_id := some 8, published_at := some 5, media := [{ file_id := "a", file_type := .PHOTO, file_size := some 3, caption := some "c", position := 0 }, { file_id := "b", file_type := .VIDEO, file_size := none, caption := none, position := 1 }], buttons := [{ text := "go", url := "https://e", row := 0, position := 0 }] }],
    schedules := [], statistics := [] }

/-- Witness for `c8_duplicate_contents` on a two-media, one-button post. -/
theorem c8_duplicate_contents_witness :
    ∃ st' : Store, duplicatePost c8WStore 4 9 = some st' ∧
      st'.posts = c8WStore.posts ++ [{ id := 9, channel_id := 2, text := "body", status := .DRAFT, telegram_message_id := none, published_at := none, media := [{ file_id := "a", file_type := .PHOTO, file_size := some 3, caption := some "c", position := 0 }, { file_id := "b", file_type := .VIDEO, file_size := none, caption := none, position := 1 }], buttons := sortBy buttonOrdLe [{ text := "go", url := "https://e", row := 0, position := 0 }] }] ∧
      List.Perm (sortBy buttonOrdLe [{ text := "go", url := "https://e", row := 0, position := 0 }])
        [({ text := "go", url := "https://e", row := 0, position := 0 } : PostButton)] ∧
      st'.schedules = c8WStore.schedules ∧ st'.statistics = c8WStore.statistics ∧
      (∀ s ∈ st'.schedules, s.post_id ≠ 9) ∧ (∀ j ∈ st'.statistics, j ≠ 9) :=
  c8_duplicate_contents c8WStore
    { id := 4, channel_id := 2, text := "body", status := .PUBLISHED, telegram_message_id := some 8, published_at := some 5, media := [{ file_id := "a", file_type := .PHOTO, file_size := some 3, caption := some "c", position := 0 }, { file_id := "b", file_type := .VIDEO, file_size := none, caption := none, position := 1 }], buttons := [{ text := "go", url := "https://e", row := 0, position := 0 }] }
    9 (by decide) (by decide) (by decide) (by decide) (by decide) (by decide)

/-! ## validateHTML (validators.ts 458-499, C7)

The source scans the text with the regex `/<\/?([a-z]+)[^>]*>/gi` and feeds
each tag through a whitelist check and an open-tag stack.  A regex match
starts at a `<`, optionally one `/`, at least one ASCII letter (the captured
name, case-insensitive), then any characters except `>`, then `>`; the scan
restarts one character further when no match starts at the current position,
and continues after each match.  Self-closing tags (`<b/>`) are recognised
via `endsWith('/>')` and are not pushed; a tag starting `</` counts as a
closing tag regardless. -/

def allowedTags : List String :=
  ["b", "strong", "i", "em", "u", "ins", "s", "strike", "del", "code", "pre",
   "a", "spoiler"]

def isAsciiLetter (c : Char) : Bool :=
  (decide ('a' ≤ c) && decide (c ≤ 'z')) || (decide ('A' ≤ c) && decide (c ≤ 'Z'))

/-- `toLowerCase` on the captured ASCII letters. -/
def asciiLower (c : Char) : Char :=
  if 'A' ≤ c ∧ c ≤ 'Z' then Char.ofNat (c.toNat + 32) else c

def lowerName (cs : List Char) : String := String.mk (cs.map asciiLower)

inductive Tok
  | tOpen (tag : String) (selfClosing : Bool)
  | tClose (tag : String)
deriving DecidableEq

def Tok.name : Tok → String
  | tOpen n _ => n
  | tClose n => n

/-- Scan for the next `>`: returns the skipped characters and the rest. -/
def findGt : List Char → Option (List Char × List Char)
  | [] => none
  | c :: cs =>
    if c = '>' then some ([], cs)
    else
      match findGt cs with
      | none => none
      | some r => some (c :: r.1, r.2)

/-- The part of a tag match after `<` and the optional `/`. -/
def parseTagCore (isCl : Bool) (rest2 : List Char) : Option (Tok × List Char) :=
  let letters := rest2.takeWhile isAsciiLetter
  let rest3 := rest2.dropWhile isAsciiLetter
  if letters.isEmpty then none
  else
    match findGt rest3 with
    | none => none
    | some r =>
      if isCl then some (Tok.tClose (lowerName letters), r.2)
      else some (Tok.tOpen (lowerName letters) (r.1.getLast? == some '/'), r.2)

def parseTag : List Char → Option (Tok × List Char)
  | [] => none
  | c :: cs =>
    if c = '<' then
      match cs with
      | '/' :: r => parseTagCore true r
      | _ => parseTagCore false cs
    else none

/-- Fuelled scanner; `fuel = length` always suffices since each step consumes
at least one character. -/
def tokenizeGo : Nat → List Char → List Tok
  | 0, _ => []
  | _ + 1, [] => []
  | f + 1, c :: rest =>
    match parseTag (c :: rest) with
    | some r => r.1 :: tokenizeGo f r.2
    | none => tokenizeGo f rest

def tokenize (cs : List Char) : List Tok := tokenizeGo cs.length cs

def whitelisted (n : String) : Bool := allowedTags.contains n

/-- Structured outcome of the while loop of `validateHTML`. -/
inductive VOutcome
  | ok
  | unknownTag (tag : String)
  | mismatch (expected : Option String) (found : String)
  | unclosed (tags : List String)
deriving DecidableEq

/-- The tag-stack loop.  The stack holds open tags, most recent first; the
unclosed-tags report lists them in the JS array (push) order, hence the
`reverse`.  A pop of the empty stack yields JS `undefined` as the expected
tag, modelled by `none`. -/
def runTags : List String → List Tok → VOutcome
  | stack, [] => if stack.isEmpty then .ok else .unclosed stack.reverse
  | stack, .tOpen n self :: rest =>
    if whitelisted n then
      if self then runTags stack rest else runTags (n :: stack) rest
    else .unknownTag n
  | [], .tClose n :: _ =>
    if whitelisted n then .mismatch none n else .unknownTag n
  | t :: s, .tClose n :: rest =>
    if whitelisted n then
      if t = n then runTags s rest else .mismatch (some t) n
    else .unknownTag n

/-- The error strings of validators.ts, built exactly as the source builds
them (template literals; `${lastOpen}` renders JS `undefined` as the string
"undefined"). -/
def renderError : VOutcome → Option String
  | .ok => none
  | .unknownTag n =>
    some ("Недопустимый HTML-тег: <" ++ n ++
      (">. Разрешены: " ++ String.intercalate ", " allowedTags))
  | .mismatch e f =>
    some ("Неправильная вложенность тегов: ожидается </" ++ e.getD "undefined" ++
      (">, найден </" ++ (f ++ ">")))
  | .unclosed ts =>
    some ("Незакрытые HTML-теги: " ++
      String.intercalate ", " (ts.map (fun t => "<" ++ (t ++ ">"))))

def validateHTML (s : String) : Option String :=
  renderError (runTags [] (tokenize s.data))

def allWhitelisted (toks : List Tok) : Prop :=
  ∀ t ∈ toks, whitelisted (Tok.name t) = true

/-- The specification's language: properly nested (LIFO-matched) sequences of
tags, with self-closing tags neutral. -/
inductive Nested : List Tok → Prop
  | nil : Nested []
  | self (n : String) (rest : List Tok) : Nested rest →
      Nested (Tok.tOpen n true :: rest)
  | wrap (n : String) (inner rest : List Tok) : Nested inner → Nested rest →
      Nested (Tok.tOpen n false :: inner ++ Tok.tClose n :: rest)

theorem renderError_eq_none {o : VOutcome} : renderError o = none ↔ o = .ok := by
  cases o <;> simp [renderError]
theorem runTags_nil_eq (stack : List String) :
    runTags stack [] = if stack.isEmpty then VOutcome.ok else VOutcome.unclosed stack.reverse := by
  cases stack <;> rfl
theorem runTags_open_self {n : String} {stack : List String} {rest : List Tok}
    (hwn : whitelisted n = true) :
    runTags stack (Tok.tOpen n true :: rest) = runTags stack rest := by
  simp only [runTags, hwn, if_true]
theorem runTags_open_push {n : String} {stack : List String} {rest : List Tok}
    (hwn : whitelisted n = true) :
    runTags stack (Tok.tOpen n false :: rest) = runTags (n :: stack) rest := by
  simp only [runTags, hwn, if_true, Bool.false_eq_true, if_false]
theorem runTags_open_dark {n : String} {self : Bool} {stack : List String} {rest : List Tok}
    (hwn : whitelisted n = false) :
    runTags stack (Tok.tOpen n self :: rest) = VOutcome.unknownTag n := by
  simp only [runTags, hwn, Bool.false_eq_true, if_false]
theorem runTags_close_nil {n : String} {rest : List Tok}
    (hwn : whitelisted n = true) :
    runTags [] (Tok.tClose n :: rest) = VOutcome.mismatch none n := by
  simp only [runTags, hwn, if_true]
theorem runTags_close_cons {n t : String} {s : List String} {rest : List Tok}
    (hwn : whitelisted n = true) :
    runTags (t :: s) (Tok.tClose n :: rest) =
      if t = n then runTags s rest else VOutcome.mismatch (some t) n := by
  simp only [runTags, hwn, if_true]
theorem runTags_close_dark {n : String} {stack : List String} {rest : List Tok}
    (hwn : whitelisted n = false) :
    runTags stack (Tok.tClose n :: rest) = VOutcome.unknownTag n := by
  cases stack <;> simp only [runTags, hwn, Bool.false_eq_true, if_false]

theorem runTags_append_of_nested {u : List Tok} (hn : Nested u) :
    allWhitelisted u → ∀ (stack : List String) (v : List Tok),
      runTags stack (u ++ v) = runTags stack v := by
  induction hn with
  | nil => intro _ _ _; rfl
  | self n rest _ ih =>
    intro hw stack v
    have hwn : whitelisted n = true := hw (Tok.tOpen n true) (List.mem_cons_self _ _)
    have hw' : allWhitelisted rest := fun x hx => hw x (List.mem_cons_of_mem _ hx)
    rw [List.cons_append, runTags_open_self hwn]
    exact ih hw' stack v
  | wrap n inner rest _ _ ih1 ih2 =>
    intro hw stack v
    have hwn : whitelisted n = true :=
      hw (Tok.tOpen n false) (List.mem_append_left _ (List.mem_cons_self _ _))
    have hwi : allWhitelisted inner := fun x hx =>
      hw x (List.mem_append_left _ (List.mem_cons_of_mem _ hx))
    have hwr : allWhitelisted rest := fun x hx =>
      hw x (List.mem_append_right _ (List.mem_cons_of_mem _ hx))
    rw [List.append_assoc, List.cons_append, List.cons_append,
      runTags_open_push hwn, ih1 hwi (n :: stack) (Tok.tClose n :: (rest ++ v)),
      runTags_close_cons hwn, if_pos rfl]
    exact ih2 hwr stack v

theorem runTags_ok_whitelisted :
    ∀ (toks : List Tok) (stack : List String), runTags stack toks = .ok →
      allWhitelisted toks := by
  intro toks
  induction toks with
  | nil => intro stack _ t ht; cases ht
  | cons tk rest ih =>
    intro stack h t ht
    cases tk with
    | tOpen n self =>
      cases hwn : whitelisted n with
      | false => rw [runTags_open_dark hwn] at h; cases h
      | true =>
        rcases List.mem_cons.mp ht with rfl | ht'
        · exact hwn
        · cases self with
          | true =>
            rw [runTags_open_self hwn] at h
            exact ih stack h t ht'
          | false =>
            rw [runTags_open_push hwn] at h
            exact ih (n :: stack) h t ht'
    | tClose n =>
      cases hwn : whitelisted n with
      | false => rw [runTags_close_dark hwn] at h; cases h
      | true =>
        rcases List.mem_cons.mp ht with rfl | ht'
        · exact hwn
        · cases stack with
          | nil => rw [runTags_close_nil hwn] at h; cases h
          | cons s0 s =>
            rw [runTags_close_cons hwn] at h
            by_cases hsn : s0 = n
            · rw [if_pos hsn] at h
              exact ih s h t ht'
            · rw [if_neg hsn] at h; cases h

theorem runTags_pop : ∀ (N : Nat) (toks : List Tok), toks.length ≤ N →
    ∀ (t : String) (stack : List String), runTags (t :: stack) toks = .ok →
      ∃ inner rest, toks = inner ++ Tok.tClose t :: rest ∧ Nested inner ∧
        runTags stack rest = .ok := by
  intro N
  induction N with
  | zero =>
    intro toks hlen t stack h
    have htoks : toks = [] := List.length_eq_zero.mp (Nat.le_zero.mp hlen)
    subst htoks
    cases h
  | succ N ih =>
    intro toks hlen t stack h
    cases toks with
    | nil => cases h
    | cons tk rest =>
      rw [List.length_cons, Nat.succ_le_succ_iff] at hlen
      cases tk with
      | tOpen n self =>
        cases hwn : whitelisted n with
        | false => rw [runTags_open_dark hwn] at h; cases h
        | true =>
          cases self with
          | true =>
            rw [runTags_open_self hwn] at h
            obtain ⟨inner, rest', heq, hnest, hrun⟩ := ih rest hlen t stack h
            refine ⟨Tok.tOpen n true :: inner, rest', ?_, Nested.self n inner hnest, hrun⟩
            rw [heq, List.cons_append]
          | false =>
            rw [runTags_open_push hwn] at h
            obtain ⟨inner1, rest1, heq1, hnest1, hrun1⟩ := ih rest hlen n (t :: stack) h
            have hlen1 : rest1.length ≤ N := by
              have : rest.length = inner1.length + (rest1.length + 1) := by
                rw [heq1, List.length_append, List.length_cons]
              omega
            obtain ⟨inner2, rest2, heq2, hnest2, hrun2⟩ := ih rest1 hlen1 t stack hrun1
            refine ⟨Tok.tOpen n false :: inner1 ++ Tok.tClose n :: inner2, rest2, ?_,
              Nested.wrap n inner1 inner2 hnest1 hnest2, hrun2⟩
            rw [heq1, heq2]
            simp [List.append_assoc]
      | tClose n =>
        cases hwn : whitelisted n with
        | false => rw [runTags_close_dark hwn] at h; cases h
        | true =>
          rw [runTags_close_cons hwn] at h
          by_cases htn : t = n
          · rw [if_pos htn] at h
            subst htn
            exact ⟨[], rest, rfl, Nested.nil, h⟩
          · rw [if_neg htn] at h; cases h

theorem runTags_nested : ∀ (N : Nat) (toks : List Tok), toks.length ≤ N →
    runTags [] toks = .ok → Nested toks := by
  intro N
  induction N with
  | zero =>
    intro toks hlen _
    have htoks : toks = [] := List.length_eq_zero.mp (Nat.le_zero.mp hlen)
    subst htoks
    exact Nested.nil
  | succ N ih =>
    intro toks hlen h
    cases toks with
    | nil => exact Nested.nil
    | cons tk rest =>
      rw [List.length_cons, Nat.succ_le_succ_iff] at hlen
      cases tk with
      | tOpen n self =>
        cases hwn : whitelisted n with
        | false => rw [runTags_open_dark hwn] at h; cases h
        | true =>
          cases self with
          | true =>
            rw [runTags_open_self hwn] at h
            exact Nested.self n rest (ih rest hlen h)
          | false =>
            rw [runTags_open_push hwn] at h
            obtain ⟨inner, rest', heq, hnest, hrun⟩ := runTags_pop N rest hlen n [] h
            have hlen' : rest'.length ≤ N := by
              have : rest.length = inner.length + (rest'.length + 1) := by
                rw [heq, List.length_append, List.length_cons]
              omega
            rw [heq]
            exact Nested.wrap n inner rest' hnest (ih rest' hlen' hrun)
      | tClose n =>
        cases hwn : whitelisted n with
        | false => rw [runTags_close_dark hwn] at h; cases h
        | true => rw [runTags_close_nil hwn] at h; cases h

theorem runTags_unknown_src :
    ∀ (toks : List Tok) (stack : List String) (n : String),
      runTags stack toks = .unknownTag n →
        whitelisted n = false ∧ ∃ t ∈ toks, Tok.name t = n := by
  intro toks
  induction toks with
  | nil =>
    intro stack n h
    cases stack with
    | nil => cases h
    | cons a s => cases h
  | cons tk rest ih =>
    intro stack n h
    cases tk with
    | tOpen m self =>
      cases hwm : whitelisted m with
      | false =>
        rw [runTags_open_dark hwm] at h
        injection h with hmn
        subst hmn
        exact ⟨hwm, Tok.tOpen m self, List.mem_cons_self _ _, rfl⟩
      | true =>
        cases self with
        | true =>
          rw [runTags_open_self hwm] at h
          obtain ⟨hw, t, ht, hn⟩ := ih stack n h
          exact ⟨hw, t, List.mem_cons_of_mem _ ht, hn⟩
        | false =>
          rw [runTags_open_push hwm] at h
          obtain ⟨hw, t, ht, hn⟩ := ih (m :: stack) n h
          exact ⟨hw, t, List.mem_cons_of_mem _ ht, hn⟩
    | tClose m =>
      cases hwm : whitelisted m with
      | false =>
        rw [runTags_close_dark hwm] at h
        injection h with hmn
        subst hmn
        exact ⟨hwm, Tok.tClose m, List.mem_cons_self _ _, rfl⟩
      | true =>
        cases stack with
        | nil =>
          rw [runTags_close_nil hwm] at h
          cases h
        | cons t0 s =>
          rw [runTags_close_cons hwm] at h
          by_cases ht0 : t0 = m
          · rw [if_pos ht0] at h
            obtain ⟨hw, t, ht, hn⟩ := ih s n h
            exact ⟨hw, t, List.mem_cons_of_mem _ ht, hn⟩
          · rw [if_neg ht0] at h
            cases h

theorem runTags_mismatch_src :
    ∀ (toks : List Tok) (stack : List String) (ex : Option String) (f : String),
      runTags stack toks = .mismatch ex f → Tok.tClose f ∈ toks := by
  intro toks
  induction toks with
  | nil =>
    intro stack ex f h
    cases stack with
    | nil => cases h
    | cons a s => cases h
  | cons tk rest ih =>
    intro stack ex f h
    cases tk with
    | tOpen m self =>
      cases hwm : whitelisted m with
      | false => rw [runTags_open_dark hwm] at h; cases h
      | true =>
        cases self with
        | true =>
          rw [runTags_open_self hwm] at h
          exact List.mem_cons_of_mem _ (ih stack ex f h)
        | false =>
          rw [runTags_open_push hwm] at h
          exact List.mem_cons_of_mem _ (ih (m :: stack) ex f h)
    | tClose m =>
      cases hwm : whitelisted m with
      | false => rw [runTags_close_dark hwm] at h; cases h
      | true =>
        cases stack with
        | nil =>
          rw [runTags_close_nil hwm] at h
          injection h with h1 h2
          subst h2
          exact List.mem_cons_self _ _
        | cons t0 s =>
          rw [runTags_close_cons hwm] at h
          by_cases ht0 : t0 = m
          · rw [if_pos ht0] at h
            exact List.mem_cons_of_mem _ (ih s ex f h)
          · rw [if_neg ht0] at h
            injection h with h1 h2
            subst h2
            exact List.mem_cons_self _ _

theorem runTags_unclosed_src :
    ∀ (toks : List Tok) (stack : List String) (ts : List String),
      runTags stack toks = .unclosed ts →
        ts ≠ [] ∧ ∀ x ∈ ts, x ∈ stack ∨ Tok.tOpen x false ∈ toks := by
  intro toks
  induction toks with
  | nil =>
    intro stack ts h
    cases stack with
    | nil => cases h
    | cons a s =>
      have hd : runTags (a :: s) ([] : List Tok) = VOutcome.unclosed ((a :: s).reverse) := rfl
      rw [hd] at h
      injection h with hts
      subst hts
      refine ⟨by simp, fun x hx => Or.inl (List.mem_reverse.mp hx)⟩
  | cons tk rest ih =>
    intro stack ts h
    cases tk with
    | tOpen m self =>
      cases hwm : whitelisted m with
      | false => rw [runTags_open_dark hwm] at h; cases h
      | true =>
        cases self with
        | true =>
          rw [runTags_open_self hwm] at h
          obtain ⟨hne, hmem⟩ := ih stack ts h
          refine ⟨hne, fun x hx => ?_⟩
          rcases hmem x hx with h' | h'
          · exact Or.inl h'
          · exact Or.inr (List.mem_cons_of_mem _ h')
        | false =>
          rw [runTags_open_push hwm] at h
          obtain ⟨hne, hmem⟩ := ih (m :: stack) ts h
          refine ⟨hne, fun x hx => ?_⟩
          rcases hmem x hx with h' | h'
          · rcases List.mem_cons.mp h' with h2 | h2
            · subst h2
              exact Or.inr (List.mem_cons_self _ _)
            · exact Or.inl h2
          · exact Or.inr (List.mem_cons_of_mem _ h')
    | tClose m =>
      cases hwm : whitelisted m with
      | false => rw [runTags_close_dark hwm] at h; cases h
      | true =>
        cases stack with
        | nil => rw [runTags_close_nil hwm] at h; cases h
        | cons t0 s =>
          rw [runTags_close_cons hwm] at h
          by_cases ht0 : t0 = m
          · rw [if_pos ht0] at h
            obtain ⟨hne, hmem⟩ := ih s ts h
            refine ⟨hne, fun x hx => ?_⟩
            rcases hmem x hx with h' | h'
            · exact Or.inl (List.mem_cons_of_mem _ h')
            · exact Or.inr (List.mem_cons_of_mem _ h')
          · rw [if_neg ht0] at h
            cases h

theorem data_append (a b : String) : (a ++ b).data = a.data ++ b.data := rfl

theorem append_ne_empty_left {a : String} (b : String) (ha : a.data ≠ []) :
    a ++ b ≠ "" := by
  intro h
  have h2 : a.data ++ b.data = [] := by
    have h3 := congrArg String.data h
    rwa [data_append] at h3
  cases hx : a.data with
  | nil => exact ha hx
  | cons c cs =>
    rw [hx] at h2
    cases h2

theorem append3_ne_empty {a : String} (b c : String) (ha : a.data ≠ []) :
    a ++ b ++ c ≠ "" := by
  apply append_ne_empty_left
  rw [data_append]
  intro hx
  cases he : a.data with
  | nil => exact ha he
  | cons d ds =>
    rw [he] at hx
    cases hx

instance (toks : List Tok) : Decidable (allWhitelisted toks) := by
  unfold allWhitelisted
  infer_instance

/-- C7: `validateHTML` accepts a string (returns no error) exactly when the
tags extracted by its regex scan are all whitelisted and properly nested
(LIFO-matched, with self-closing tags neutral); every error it returns is a
non-empty string, and each error names the offending tag(s): the unknown-tag
error names an unwhitelisted tag occurring among the scanned tags, the
nesting error cites the expected closing tag (JS `undefined` when the stack
is empty) versus the closing tag found in the input, and the unclosed error
lists the (nonempty) tags opened in the input and never closed. -/
theorem c7_validateHTML (s : String) :
    (validateHTML s = none ↔
      allWhitelisted (tokenize s.data) ∧ Nested (tokenize s.data)) ∧
    (∀ e, validateHTML s = some e → e ≠ "") ∧
    (∀ n, runTags [] (tokenize s.data) = VOutcome.unknownTag n →
      whitelisted n = false ∧ (∃ t ∈ tokenize s.data, Tok.name t = n) ∧
      validateHTML s = some ("Недопустимый HTML-тег: <" ++ n ++
        (">. Разрешены: " ++ String.intercalate ", " allowedTags))) ∧
    (∀ ex f, runTags [] (tokenize s.data) = VOutcome.mismatch ex f →
      Tok.tClose f ∈ tokenize s.data ∧
      validateHTML s = some ("Неправильная вложенность тегов: ожидается </" ++
        ex.getD "undefined" ++ (">, найден </" ++ (f ++ ">")))) ∧
    (∀ ts, runTags [] (tokenize s.data) = VOutcome.unclosed ts →
      ts ≠ [] ∧ (∀ x ∈ ts, Tok.tOpen x false ∈ tokenize s.data) ∧
      validateHTML s = some ("Незакрытые HTML-теги: " ++
        String.intercalate ", " (ts.map (fun t => "<" ++ (t ++ ">"))))) := by
  refine ⟨⟨?_, ?_⟩, ?_, ?_, ?_, ?_⟩
  · intro h
    have hok : runTags [] (tokenize s.data) = VOutcome.ok := by
      unfold validateHTML at h
      exact renderError_eq_none.mp h
    exact ⟨runTags_ok_whitelisted (tokenize s.data) [] hok,
      runTags_nested (tokenize s.data).length (tokenize s.data) (Nat.le_refl _) hok⟩
  · rintro ⟨hw, hn⟩
    have h2 := runTags_append_of_nested hn hw [] []
    rw [List.append_nil] at h2
    unfold validateHTML
    rw [h2]
    rfl
  · intro e he
    unfold validateHTML at he
    cases ho : runTags [] (tokenize s.data) with
    | ok =>
      rw [ho] at he
      exact Option.noConfusion he
    | unknownTag n =>
      rw [ho] at he
      have he' : some ("Недопустимый HTML-тег: <" ++ n ++
          (">. Разрешены: " ++ String.intercalate ", " allowedTags)) = some e := he
      injection he' with he2
      rw [← he2]
      exact append3_ne_empty _ _ (by decide)
    | mismatch ex f =>
      rw [ho] at he
      have he' : some ("Неправильная вложенность тегов: ожидается </" ++
          ex.getD "undefined" ++ (">, найден </" ++ (f ++ ">"))) = some e := he
      injection he' with he2
      rw [← he2]
      exact append3_ne_empty _ _ (by decide)
    | unclosed ts =>
      rw [ho] at he
      have he' : some ("Незакрытые HTML-теги: " ++
          String.intercalate ", " (ts.map (fun t => "<" ++ (t ++ ">")))) = some e := he
      injection he' with he2
      rw [← he2]
      exact append_ne_empty_left _ (by decide)
  · intro n hn
    obtain ⟨hwf, hsrc⟩ := runTags_unknown_src (tokenize s.data) [] n hn
    refine ⟨hwf, hsrc, ?_⟩
    unfold validateHTML
    rw [hn]
    rfl
  · intro ex f hm
    refine ⟨runTags_mismatch_src (tokenize s.data) [] ex f hm, ?_⟩
    unfold validateHTML
    rw [hm]
    rfl
  · intro ts hu
    obtain ⟨hne, hmem⟩ := runTags_unclosed_src (tokenize s.data) [] ts hu
    refine ⟨hne, fun x hx => ?_, ?_⟩
    · rcases hmem x hx with h' | h'
      · cases h'
      · exact h'
    · unfold validateHTML
      rw [hu]
      rfl

theorem c7_validateHTML_witness :
    validateHTML "<b><i>x</i></b>" = none ∧
    validateHTML "<div>x</div>" = some ("Недопустимый HTML-тег: <" ++ "div" ++
      (">. Разрешены: " ++ String.intercalate ", " allowedTags)) ∧
    validateHTML "<b>x</i>" = some ("Неправильная вложенность тегов: ожидается </" ++
      (some "b").getD "undefined" ++ (">, найден </" ++ ("i" ++ ">"))) ∧
    validateHTML "<b>x" = some ("Незакрытые HTML-теги: " ++
      String.intercalate ", " (["b"].map (fun t => "<" ++ (t ++ ">")))) := by
  refine ⟨?_, ?_, ?_, ?_⟩
  · apply (c7_validateHTML "<b><i>x</i></b>").1.mpr
    have ht : tokenize ("<b><i>x</i></b>" : String).data =
        [Tok.tOpen "b" false, Tok.tOpen "i" false, Tok.tClose "i", Tok.tClose "b"] := by
      decide
    rw [ht]
    refine ⟨by decide, ?_⟩
    exact Nested.wrap "b" [Tok.tOpen "i" false, Tok.tClose "i"] []
      (Nested.wrap "i" [] [] Nested.nil Nested.nil) Nested.nil
  · exact ((c7_validateHTML "<div>x</div>").2.2.1 "div" (by decide)).2.2
  · exact ((c7_validateHTML "<b>x</i>").2.2.2.1 (some "b") "i" (by decide)).2
  · exact ((c7_validateHTML "<b>x").2.2.2.2 ["b"] (by decide)).2.2
